import Mathlib

/-!
# A shallow embedding of the DICOM tag-stream decoder

The development follows `src/internal/services/dicom.go` and
`src/internal/types/tag.go`.

* A byte is a natural number (below 256 in a well-formed file); a Go
  `string` or `[]byte` is a `List Nat`.
* An `*os.File` is the file content together with the cursor position.
  `Read` fills a zero-initialised buffer (`make([]byte, n)`) with as many
  bytes as remain and advances the cursor by that many; the count and the
  error it returns are discarded by every caller in the source, so they
  are not part of the model.  A single `Read` is taken to deliver every
  byte that remains up to the size of the buffer, and `make` to succeed
  whatever the size.  `Seek` moves the cursor and leaves it alone when
  the target would be negative.
* Standard output is the list of bytes written so far.
* The two `for` loops are iterated with fuel; `ParseDicomFile` supplies
  `len(file) + 1` and the development proves that this is always enough.
-/

namespace DicomParser

/-! ## Bytes, text and formatting verbs -/

/-- The bytes of an ASCII text. -/
def bytesOf (s : String) : List Nat := s.toList.map Char.toNat

/-- The verb `%d` applied to an unsigned integer: its decimal digits. -/
def fmtDecimal (n : Nat) : List Nat := bytesOf (Nat.repr n)

/-- The verb `%04x` applied to an unsigned integer: lowercase hexadecimal,
padded with zeros on the left to at least four digits. -/
def fmtHex4 (n : Nat) : List Nat :=
  let ds := (Nat.toDigits 16 n).map Char.toNat
  List.replicate (4 - ds.length) 48 ++ ds

/-- The value of a byte sequence read as a little-endian unsigned integer. -/
def littleEndian : List Nat → Nat
  | [] => 0
  | b :: bs => b + 256 * littleEndian bs

/-- `binary.LittleEndian.Uint16` on a buffer of at least 2 bytes. -/
def Uint16 (b : List Nat) : Nat := littleEndian (b.take 2)

/-- `binary.LittleEndian.Uint32` on a buffer of at least 4 bytes. -/
def Uint32 (b : List Nat) : Nat := littleEndian (b.take 4)

/-- `binary.LittleEndian.Uint64` on a buffer of at least 8 bytes. -/
def Uint64 (b : List Nat) : Nat := littleEndian (b.take 8)

/-! ## The byte cursor (`*os.File`) -/

/-- An open file: its content and the cursor position. -/
structure File where
  data : List Nat
  pos : Nat
deriving DecidableEq, Repr

/-- `file.Seek(offset, whence)`, the result discarded: `whence` 0 is
relative to the start, 1 to the cursor, 2 to the end.  A negative target
is an error and the cursor stays where it is; a target past the end is
allowed. -/
def File.Seek (f : File) (offset : Int) (whence : Nat) : File :=
  let base : Int :=
    if whence = 0 then 0 else if whence = 1 then (f.pos : Int) else (f.data.length : Int)
  if base + offset < 0 then f else { f with pos := (base + offset).toNat }

/-- The first `n` elements of `l`, followed by zeros when `l` has fewer: a
zero-initialised buffer of `n` bytes after `l` was copied into it. -/
def padTake (n : Nat) (l : List Nat) : List Nat :=
  l.take n ++ List.replicate (n - (l.take n).length) 0

/-- `buf := make([]byte, n); file.Read(buf)`: the buffer afterwards and the
file afterwards.  Bytes the file cannot supply stay zero. -/
def File.Read (f : File) (n : Nat) : List Nat × File :=
  (padTake n (f.data.drop f.pos),
   { f with pos := f.pos + ((f.data.drop f.pos).take n).length })

/-- Number of bytes between the cursor and the end of the file. -/
def File.remaining (f : File) : Nat := f.data.length - f.pos

/-- The `n` bytes that start `i` places after the cursor, zero where the
file has none. -/
def File.window (f : File) (i n : Nat) : List Nat :=
  padTake n (f.data.drop (f.pos + i))

/-! ## Elements (`types.Tag`) -/

/-- The struct `types.Tag`.  `Value` is `none` for the nil slice. -/
structure Tag where
  Group : Nat
  Element : Nat
  VR : List Nat
  Length : Nat
  Value : Option (List Nat)
deriving DecidableEq, Repr

/-- The bytes of `tag.Value` (none for a nil slice). -/
def Tag.valueBytes (t : Tag) : List Nat := t.Value.getD []

/-! ## Element decoders -/

/-- `ReadGroupAndElement`: the pair read and the file afterwards. -/
def ReadGroupAndElement (file : File) : (Nat × Nat) × File :=
  let g := file.Read 2
  let e := g.2.Read 2
  ((Uint16 g.1, Uint16 e.1), e.2)

/-- The representation codes whose length field is 2 bytes long. -/
def shortFormVRs : List (List Nat) :=
  ["AE", "AS", "AT", "CS", "DA", "DS", "DT", "FL", "FD", "IS", "LO", "LT", "PN",
   "SH", "SL", "SS", "ST", "TM", "UI", "UL", "US"].map bytesOf

/-- The length field of `ReadExplicitVRTag` for the representation `vr`:
the length and the file afterwards. -/
def readExplicitLength (vr : List Nat) (file : File) : Nat × File :=
  if vr ∈ shortFormVRs then
    let r := file.Read 2
    (Uint16 r.1, r.2)
  else
    let r := (file.Seek 2 1).Read 4
    (Uint32 r.1, r.2)

/-- `ReadExplicitVRTag`: the tag returned (group and element still zero)
and the file afterwards. -/
def ReadExplicitVRTag (file : File) : Tag × File :=
  let v := file.Read 2
  let vr := v.1
  let l := readExplicitLength vr v.2
  if vr = bytesOf "SQ" then
    ({ Group := 0, Element := 0, VR := vr, Length := l.1, Value := none }, l.2)
  else
    let b := l.2.Read l.1
    ({ Group := 0, Element := 0, VR := vr, Length := l.1, Value := some b.1 }, b.2)

/-- `ReadImplicitVRTag`: the tag returned and the file afterwards. -/
def ReadImplicitVRTag (file : File) : Tag × File :=
  let l := file.Read 4
  let length := Uint32 l.1
  let b := l.2.Read length
  ({ Group := 0, Element := 0, VR := [], Length := length, Value := some b.1 }, b.2)

/-! ## Rendering -/

/-- What a call wrote to standard output, and whether it ended in a
run-time panic instead of returning. -/
structure Emit where
  out : List Nat
  panicked : Bool
deriving DecidableEq, Repr

/-- The text of `"(%04x,%04x) %s(%d) "`. -/
def tagHeader (group element : Nat) (vr : List Nat) (length : Nat) : List Nat :=
  bytesOf "(" ++ fmtHex4 group ++ bytesOf "," ++ fmtHex4 element ++ bytesOf ") " ++ vr
    ++ bytesOf "(" ++ fmtDecimal length ++ bytesOf ") "

/-- The `switch` of `PrintTag`, after the line's head `head` was written.
Indexing `Value` past its end panics. -/
def printValue (head : List Nat) (length : Nat) (value : List Nat) : Emit :=
  if length = 1 then
    if value.length < 1 then ⟨head, true⟩
    else ⟨head ++ fmtDecimal (value.getD 0 0) ++ [10], false⟩
  else if length = 2 then
    if value.length < 2 then ⟨head, true⟩
    else ⟨head ++ fmtDecimal (Uint16 value) ++ [10], false⟩
  else if length = 4 then
    if value.length < 4 then ⟨head, true⟩
    else ⟨head ++ fmtDecimal (Uint32 value) ++ [10], false⟩
  else if length = 8 then
    if value.length < 8 then ⟨head, true⟩
    else ⟨head ++ fmtDecimal (Uint64 value) ++ [10], false⟩
  else ⟨head ++ value ++ [10], false⟩

/-- `PrintTag`.  `strings.Repeat` panics on a negative count. -/
def PrintTag (tag : Tag) (depth : Int) : Emit :=
  if depth * 2 < 0 then ⟨[], true⟩
  else
    let head := List.replicate (depth * 2).toNat 32
      ++ tagHeader tag.Group tag.Element tag.VR tag.Length
    if tag.Length > 1024 then
      ⟨head ++ bytesOf "<Value is too long to display>\n", false⟩
    else printValue head tag.Length tag.valueBytes

/-! ## The stream walker (`ParseDicomFile`) -/

/-- How a run of `ParseDicomFile` ends: it returns its `error` result
(`none` for `nil`), `log.Fatal` ends the process, or a run-time panic does. -/
inductive Outcome where
  | returned (err : Option String)
  | fatal (msg : String)
  | panicked
deriving DecidableEq, Repr

/-- A finished run: the bytes written to standard output and how it ended. -/
structure Run where
  stdout : List Nat
  outcome : Outcome
deriving DecidableEq, Repr

/-- The variables of the meta-header loop; `transferSyntaxUID` is the
variable the source calls transfer syntax. -/
structure MetaState where
  file : File
  transferSyntaxUID : List Nat
deriving DecidableEq, Repr

/-- One iteration of the meta-header loop. -/
inductive MetaStep where
  | stop (group element : Nat) (s : MetaState)
  | next (s : MetaState) (out : List Nat)
  | panic (out : List Nat)
deriving DecidableEq, Repr

/-- The body of the meta-header loop (lines 38 to 57). -/
def metaStep (s : MetaState) : MetaStep :=
  let r := ReadGroupAndElement s.file
  let group := r.1.1
  let element := r.1.2
  if group ≠ 0x0002 then
    .stop group element { s with file := r.2.Seek (-4) 1 }
  else
    let t := ReadExplicitVRTag r.2
    let tag : Tag := { t.1 with Group := group, Element := element }
    let transferSyntaxUID := if element = 0x0010 then tag.valueBytes else s.transferSyntaxUID
    let p := PrintTag tag 0
    if p.panicked then .panic p.out
    else .next { file := t.2, transferSyntaxUID := transferSyntaxUID } p.out

/-- The end of the meta-header loop: the pair that ended it, the variables
after the rewind and the output so far; or a panic with the output so far. -/
inductive MetaEnd where
  | done (group element : Nat) (s : MetaState) (out : List Nat)
  | panic (out : List Nat)
deriving DecidableEq, Repr

/-- The meta-header loop, at most `fuel` iterations; `none` when they do
not suffice. -/
def metaLoop : Nat → MetaState → List Nat → Option MetaEnd
  | 0, _, _ => none
  | fuel + 1, s, out =>
    match metaStep s with
    | .stop group element s1 => some (.done group element s1 out)
    | .next s1 o => metaLoop fuel s1 (out ++ o)
    | .panic o => some (.panic (out ++ o))

/-- The variables of the data-set loop. -/
structure DataState where
  file : File
  seqDepth : Int
  seqLengthRemaining : Nat
deriving DecidableEq, Repr

/-- One iteration of the data-set loop. -/
inductive DataStep where
  | stop
  | next (s : DataState) (out : List Nat)
  | panic (out : List Nat)
deriving DecidableEq, Repr

/-- The line written for an item marker (line 94). -/
def itemLine (group element lengthValue : Nat) : List Nat :=
  bytesOf "  (" ++ fmtHex4 group ++ bytesOf "," ++ fmtHex4 element ++ bytesOf ") "
    ++ bytesOf "NA" ++ bytesOf "(" ++ fmtDecimal lengthValue ++ bytesOf ") <Sequence Item>\n"

/-- The line written for a sequence element (line 117). -/
def sequenceLine (group element : Nat) (vr : List Nat) (length : Nat) : List Nat :=
  bytesOf "(" ++ fmtHex4 group ++ bytesOf "," ++ fmtHex4 element ++ bytesOf ") " ++ vr
    ++ bytesOf "(" ++ fmtDecimal length ++ bytesOf ") <Sequence of Items>\n"

/-- The body of the data-set loop (lines 74 to 121).  The counter is a
`uint32`: the subtraction wraps modulo `2^32`. -/
def dataStep (isExplicitVR : Bool) (s : DataState) : DataStep :=
  let r := ReadGroupAndElement s.file
  let group := r.1.1
  let element := r.1.2
  if group = 0 ∧ element = 0 then .stop
  else if group = 0xfffe ∧ element = 0xe000 then
    let l := r.2.Read 4
    let lengthValue := Uint32 l.1
    let remaining := (s.seqLengthRemaining + 2 ^ 32 - lengthValue % 2 ^ 32) % 2 ^ 32
    let depth := if remaining = 0 then s.seqDepth + 1 - 1 else s.seqDepth + 1
    .next { file := l.2, seqDepth := depth, seqLengthRemaining := remaining }
      (itemLine group element lengthValue)
  else
    let t := if isExplicitVR then ReadExplicitVRTag r.2 else ReadImplicitVRTag r.2
    let tag : Tag := { t.1 with Group := group, Element := element }
    if tag.VR = bytesOf "SQ" then
      .next { file := t.2, seqDepth := s.seqDepth + 1, seqLengthRemaining := tag.Length }
        (sequenceLine group element tag.VR tag.Length)
    else
      let p := PrintTag tag s.seqDepth
      if p.panicked then .panic p.out
      else .next { s with file := t.2 } p.out

/-- The data-set loop, at most `fuel` iterations; `none` when they do not
suffice.  `out` is the output written before the loop. -/
def dataLoop (isExplicitVR : Bool) : Nat → DataState → List Nat → Option Run
  | 0, _, _ => none
  | fuel + 1, s, out =>
    match dataStep isExplicitVR s with
    | .stop => some ⟨out, .returned none⟩
    | .next s1 o => dataLoop isExplicitVR fuel s1 (out ++ o)
    | .panic o => some ⟨out ++ o, .panicked⟩

/-- The encoding mode chosen from the captured transfer syntax (lines 60
to 64). -/
def isExplicitVR (transferSyntaxUID : List Nat) : Bool :=
  if transferSyntaxUID = bytesOf "1.2.840.10008.1.2" then false else true

/-- The 4 bytes compared with the marker (lines 22 to 26), and the file
after reading them. -/
def readPreamble (dicomfile : File) : List Nat × File :=
  (dicomfile.Seek 128 0).Read 4

/-- `ParseDicomFile` from line 32 on, with `fuel` iterations for each loop. -/
def parseBody (fuel : Nat) (file : File) : Option Run :=
  match metaLoop fuel { file := file, transferSyntaxUID := [] } (bytesOf "Meta Header:\n") with
  | none => none
  | some (.panic out) => some ⟨out, .panicked⟩
  | some (.done _ _ s out) =>
    dataLoop (isExplicitVR s.transferSyntaxUID) fuel
      { file := s.file, seqDepth := 0, seqLengthRemaining := 0 }
      (out ++ bytesOf "\n" ++ bytesOf "Data Set:\n")

/-- `ParseDicomFile` with `fuel` iterations for each loop. -/
def ParseDicomFileFuel (fuel : Nat) (dicomfile : File) : Option Run :=
  let p := readPreamble dicomfile
  if p.1 ≠ bytesOf "DICM" then some ⟨[], .fatal "Not a DICOM file"⟩
  else parseBody fuel p.2

/-- `ParseDicomFile`. -/
def ParseDicomFile (dicomfile : File) : Option Run :=
  ParseDicomFileFuel (dicomfile.data.length + 1) dicomfile

/-- Number of bytes `ReadExplicitVRTag` reads before the value: the VR and
the length field. -/
def explicitHeaderSize (vr : List Nat) : Nat := if vr ∈ shortFormVRs then 4 else 8

/-- The minimal file of the scenario, with padding byte `pad`. -/
def minimalFile (pad : Nat) : File :=
  { data := List.replicate 128 0 ++ bytesOf "DICM" ++ [0x02, 0x00, 0x10, 0x00] ++ bytesOf "UI"
      ++ [18, 0] ++ bytesOf "1.2.840.10008.1.2" ++ [pad] ++ [0, 0, 0, 0],
    pos := 0 }

/-- The minimal file with the cursor at offset `k`. -/
def minimalFileAt (pad k : Nat) : File := { data := (minimalFile pad).data, pos := k }

/-- A file that ends right after the marker. -/
def markerOnlyFile : File := { data := List.replicate 128 0 ++ bytesOf "DICM", pos := 0 }

/-- The minimal file cut off after the first 3 of the 18 value bytes. -/
def truncatedFile : File :=
  { data := List.replicate 128 0 ++ bytesOf "DICM" ++ [0x02, 0x00, 0x10, 0x00] ++ bytesOf "UI"
      ++ [18, 0] ++ bytesOf "1.2",
    pos := 0 }

/-- The element (0008,0020) of the scenario in explicit encoding: VR `DA`,
length 8, value `20230101`. -/
def dateElementFile : File :=
  { data := [0x08, 0x00, 0x20, 0x00] ++ bytesOf "DA" ++ [8, 0] ++ bytesOf "20230101", pos := 0 }

/-- The tag decoded from `dateElementFile`. -/
def dateTag : Tag :=
  { Group := 0x0008, Element := 0x0020, VR := bytesOf "DA", Length := 8,
    Value := some (bytesOf "20230101") }

/-- The value part of a rendered line as the spec words it: the placeholder
for more than 1024 bytes; the decimal form of the little-endian unsigned
integer for 1, 2, 4 or 8 bytes; the raw bytes as text otherwise. -/
def referenceValuePart (length : Nat) (value : List Nat) : List Nat :=
  if length > 1024 then bytesOf "<Value is too long to display>"
  else if length = 1 ∨ length = 2 ∨ length = 4 ∨ length = 8 then fmtDecimal (littleEndian value)
  else value

/-- An explicit sequence element after its tag: VR `SQ`, 2 reserved bytes,
length 12, and 12 bytes of content (an item marker, item length 4 and 4
bytes). -/
def sequenceElementFile : File :=
  { data := bytesOf "SQ" ++ [0, 0] ++ [12, 0, 0, 0] ++ [0xfe, 0xff, 0x00, 0xe0]
      ++ [4, 0, 0, 0] ++ [1, 2, 3, 4],
    pos := 0 }

/-- An implicit element after its tag: length 3 and the value `abc`. -/
def implicitElementFile : File :=
  { data := [3, 0, 0, 0] ++ bytesOf "abc", pos := 0 }

/-- A file with no byte at all. -/
def emptyFile : File := { data := [], pos := 0 }

/-! ## Iterations of the data-set loop, with a record of the nesting -/

/-- What an iteration of the data-set loop that continues met: an item
marker with its item length, a sequence element with its declared length,
or a leaf element. -/
inductive DataEvent where
  | item (lengthValue : Nat)
  | sequence (length : Nat)
  | leaf
deriving DecidableEq, Repr

/-- The kind of element the iteration that starts in `s` meets (lines 81,
98 to 102 and 114), for an iteration that goes past the check of line 76. -/
def dataEvent (isExplicitVR : Bool) (s : DataState) : DataEvent :=
  let r := ReadGroupAndElement s.file
  if r.1.1 = 0xfffe ∧ r.1.2 = 0xe000 then .item (Uint32 (r.2.Read 4).1)
  else
    let t := if isExplicitVR then ReadExplicitVRTag r.2 else ReadImplicitVRTag r.2
    if t.1.VR = bytesOf "SQ" then .sequence t.1.Length else .leaf

/-- The sequence element that last set the counter and the item lengths
subtracted from the counter since.  Before any sequence element the counter
counts from 0. -/
structure Frame where
  declared : Nat
  items : List Nat
deriving DecidableEq, Repr

/-- The record after an iteration. -/
def Frame.record (fr : Frame) : DataEvent → Frame
  | .item lengthValue => { fr with items := fr.items ++ [lengthValue] }
  | .sequence length => { declared := length, items := [] }
  | .leaf => fr

/-- The data-set loop between iterations: its variables, the output so
far, and the record of the nesting. -/
structure Tracked where
  state : DataState
  out : List Nat
  frame : Frame
deriving DecidableEq, Repr

/-- One iteration that continues; `none` when the loop ends in it. -/
def trackStep (isExplicitVR : Bool) (t : Tracked) : Option Tracked :=
  match dataStep isExplicitVR t.state with
  | .next s1 o =>
    some { state := s1, out := t.out ++ o, frame := t.frame.record (dataEvent isExplicitVR t.state) }
  | _ => none

/-- The first `n` iterations of the data-set loop; `none` when the loop
ends before. -/
def dataRun (isExplicitVR : Bool) : Nat → Tracked → Option Tracked
  | 0, t => some t
  | n + 1, t => (dataRun isExplicitVR n t).bind (trackStep isExplicitVR)

/-- The data-set loop as `ParseDicomFile` enters it (lines 66 to 70). -/
def dataStart (file : File) (out : List Nat) : Tracked :=
  { state := { file := file, seqDepth := 0, seqLengthRemaining := 0 }, out := out,
    frame := { declared := 0, items := [] } }

/-- The data set of the scenario: a sequence element (0008,1140) in explicit
encoding with declared length 12, then one item marker with item length 12. -/
def sequenceScenarioFile : File :=
  { data := [0x08, 0x00, 0x40, 0x11] ++ bytesOf "SQ" ++ [0, 0] ++ [12, 0, 0, 0]
      ++ [0xfe, 0xff, 0x00, 0xe0] ++ [12, 0, 0, 0],
    pos := 0 }

/-- A data set in explicit encoding: a sequence element (0008,1140) with
declared length 12, an item marker with item length 13 and an item marker
with item length 4294967295. -/
def wrappingItemsFile : File :=
  { data := [0x08, 0x00, 0x40, 0x11] ++ bytesOf "SQ" ++ [0, 0] ++ [12, 0, 0, 0]
      ++ [0xfe, 0xff, 0x00, 0xe0] ++ [13, 0, 0, 0]
      ++ [0xfe, 0xff, 0x00, 0xe0] ++ [0xff, 0xff, 0xff, 0xff],
    pos := 0 }

/-- The number a text of hexadecimal digits (`0`..`9`, `a`..`f`) denotes. -/
def hexValue (cs : List Nat) : Nat :=
  cs.foldl (fun acc c => acc * 16 + (if c < 58 then c - 48 else c - 87)) 0

/-- A leaf element whose 3-byte value holds a newline: `a`, newline, `b`. -/
def newlineTag : Tag :=
  { Group := 0x0010, Element := 0x0010, VR := bytesOf "PN", Length := 3,
    Value := some [97, 10, 98] }

/-- The minimal file of the scenario with the 18 value bytes `value`. -/
def minimalFileWith (value : List Nat) : File :=
  { data := List.replicate 128 0 ++ bytesOf "DICM" ++ [0x02, 0x00, 0x10, 0x00] ++ bytesOf "UI"
      ++ [18, 0] ++ value ++ [0, 0, 0, 0],
    pos := 0 }

/-- A file whose meta header holds the element (0002,0001) with VR `SQ` and
declared length 1. -/
def metaSequenceFile : File :=
  { data := List.replicate 128 0 ++ bytesOf "DICM" ++ [0x02, 0x00, 0x01, 0x00] ++ bytesOf "SQ"
      ++ [0, 0] ++ [1, 0, 0, 0],
    pos := 0 }

/-- The first `n` iterations of the meta-header loop; `none` when the loop
ends before. -/
def metaRun : Nat → MetaState → Option MetaState
  | 0, s => some s
  | n + 1, s =>
    (metaRun n s).bind (fun s1 =>
      match metaStep s1 with
      | .next s2 _ => some s2
      | _ => none)

/-- Lines 104 to 121 of the data-set loop: what the iteration does with the
tag `t.1` it decoded (and the file `t.2` after decoding it). -/
def afterDecode (s : DataState) (group element : Nat) (t : Tag × File) : DataStep :=
  let tag : Tag := { t.1 with Group := group, Element := element }
  if tag.VR = bytesOf "SQ" then
    .next { file := t.2, seqDepth := s.seqDepth + 1, seqLengthRemaining := tag.Length }
      (sequenceLine group element tag.VR tag.Length)
  else
    let p := PrintTag tag s.seqDepth
    if p.panicked then .panic p.out
    else .next { s with file := t.2 } p.out

/-- Two files with the cursor at the same place and the same first `P`
bytes, each longer than `P`. -/
def Agree (P : Nat) (f1 f2 : File) : Prop :=
  f1.pos = f2.pos ∧ f1.data.take P = f2.data.take P ∧ P < f1.data.length ∧ P < f2.data.length

/-- A file whose only meta-header element has the 4 zero bytes that end the
file as its value. -/
def zeroValueFile : File :=
  { data := List.replicate 128 0 ++ bytesOf "DICM" ++ [0x02, 0x00, 0x01, 0x00] ++ bytesOf "UI"
      ++ [4, 0] ++ [0, 0, 0, 0],
    pos := 0 }

/-- The file `zeroValueFile` with 4 more bytes after its last 4 bytes. -/
def zeroValueFileMore : File :=
  { data := zeroValueFile.data ++ bytesOf "AAAA", pos := 0 }

/-- A file whose element (0002,0010) has length 17 and the value
`1.2.840.10008.1.2`, followed by a data set in implicit encoding: the
element (0008,0020) with length 8 and value `20230101`. -/
def implicitDataFile : File :=
  { data := List.replicate 128 0 ++ bytesOf "DICM" ++ [0x02, 0x00, 0x10, 0x00] ++ bytesOf "UI"
      ++ [17, 0] ++ bytesOf "1.2.840.10008.1.2"
      ++ [0x08, 0x00, 0x20, 0x00] ++ [8, 0, 0, 0] ++ bytesOf "20230101",
    pos := 0 }

/-- A file with a sequence nested in a sequence.  The meta header holds the
element (0002,0010) with the value `1.2.840.10008.1.2.1` and a padding zero
(length 20); the data set, in explicit encoding from offset 160, is a
sequence element (0008,1140) of length 44 holding one item of length 36,
which holds a sequence element (0040,a730) of length 24 holding one item of
length 16, which holds the element (0008,0020) with VR `DA`, length 8 and
value `20230101`. -/
def nestedSequenceFile : File :=
  { data := List.replicate 128 0 ++ bytesOf "DICM" ++ [0x02, 0x00, 0x10, 0x00] ++ bytesOf "UI"
      ++ [20, 0] ++ bytesOf "1.2.840.10008.1.2.1" ++ [0]
      ++ [0x08, 0x00, 0x40, 0x11] ++ bytesOf "SQ" ++ [0, 0] ++ [44, 0, 0, 0]
      ++ [0xfe, 0xff, 0x00, 0xe0] ++ [36, 0, 0, 0]
      ++ [0x40, 0x00, 0x30, 0xa7] ++ bytesOf "SQ" ++ [0, 0] ++ [24, 0, 0, 0]
      ++ [0xfe, 0xff, 0x00, 0xe0] ++ [16, 0, 0, 0]
      ++ [0x08, 0x00, 0x20, 0x00] ++ bytesOf "DA" ++ [8, 0] ++ bytesOf "20230101",
    pos := 0 }

/-! # Properties -/

/-! ## The byte cursor -/

theorem padTake_length (n : Nat) (l : List Nat) : (padTake n l).length = n := by
  simp only [padTake, List.length_append, List.length_replicate, List.length_take]
  omega

theorem padTake_of_le (n : Nat) (l : List Nat) (h : n ≤ l.length) :
    padTake n l = l.take n := by
  simp only [padTake, List.length_take]
  rw [Nat.min_eq_left h, Nat.sub_self]
  simp

theorem padTake_of_ge (n : Nat) (l : List Nat) (h : l.length ≤ n) :
    padTake n l = l ++ List.replicate (n - l.length) 0 := by
  simp only [padTake, List.length_take]
  rw [Nat.min_eq_right h, List.take_of_length_le h]

theorem padTake_nil (n : Nat) : padTake n [] = List.replicate n 0 := by
  simp [padTake]

theorem littleEndian_replicate_zero (n : Nat) : littleEndian (List.replicate n 0) = 0 := by
  induction n with
  | zero => rfl
  | succ k ih => simp [List.replicate_succ, littleEndian, ih]

theorem Read_data (f : File) (n : Nat) : (f.Read n).2.data = f.data := rfl

theorem Read_pos (f : File) (n : Nat) :
    (f.Read n).2.pos = f.pos + min n (f.data.length - f.pos) := by
  simp [File.Read, List.length_take, List.length_drop]

theorem Read_buf (f : File) (n : Nat) : (f.Read n).1 = f.window 0 n := rfl

theorem Read_window (f : File) (n i m : Nat) :
    (f.Read n).2.window i m = f.window (n + i) m := by
  simp only [File.window, Read_data, Read_pos]
  by_cases h : n ≤ f.data.length - f.pos
  · rw [Nat.min_eq_left h, Nat.add_assoc]
  · have h1 : min n (f.data.length - f.pos) = f.data.length - f.pos := Nat.min_eq_right (by omega)
    rw [h1, List.drop_eq_nil_of_le (by omega), List.drop_eq_nil_of_le (by omega)]

theorem Seek_data (f : File) (o : Int) (w : Nat) : (f.Seek o w).data = f.data := by
  unfold File.Seek
  simp only
  by_cases h : (if w = 0 then (0 : Int) else if w = 1 then (f.pos : Int) else (f.data.length : Int)) + o < 0
  · rw [if_pos h]
  · rw [if_neg h]

theorem Seek_forward_pos (f : File) (k : Nat) : (f.Seek (k : Int) 1).pos = f.pos + k := by
  unfold File.Seek
  simp only
  have h : ¬ ((f.pos : Int) + (k : Int) < 0) := by omega
  simp [h]
  omega

theorem Seek_forward_window (f : File) (k i m : Nat) :
    (f.Seek (k : Int) 1).window i m = f.window (k + i) m := by
  simp only [File.window, Seek_data, Seek_forward_pos, Nat.add_assoc]

/-! ## Decoders -/

theorem window_length (f : File) (i n : Nat) : (f.window i n).length = n :=
  padTake_length _ _

theorem window_of_le (f : File) (i n : Nat) (h : f.pos + i + n ≤ f.data.length) :
    f.window i n = (f.data.drop (f.pos + i)).take n :=
  padTake_of_le _ _ (by rw [List.length_drop]; omega)

theorem Uint16_window (f : File) (i : Nat) :
    Uint16 (f.window i 2) = littleEndian (f.window i 2) := by
  unfold Uint16
  rw [List.take_of_length_le (by rw [window_length])]

theorem Uint32_window (f : File) (i : Nat) :
    Uint32 (f.window i 4) = littleEndian (f.window i 4) := by
  unfold Uint32
  rw [List.take_of_length_le (by rw [window_length])]

theorem sq_not_short : bytesOf "SQ" ∉ shortFormVRs := by decide

theorem readExplicitLength_short (vr : List Nat) (f : File) (h : vr ∈ shortFormVRs) :
    readExplicitLength vr f = (Uint16 (f.Read 2).1, (f.Read 2).2) := by
  unfold readExplicitLength
  rw [if_pos h]

theorem readExplicitLength_long (vr : List Nat) (f : File) (h : vr ∉ shortFormVRs) :
    readExplicitLength vr f = (Uint32 ((f.Seek 2 1).Read 4).1, ((f.Seek 2 1).Read 4).2) := by
  unfold readExplicitLength
  rw [if_neg h]

theorem ReadExplicitVRTag_VR (file : File) :
    (ReadExplicitVRTag file).1.VR = file.window 0 2 := by
  unfold ReadExplicitVRTag
  simp only
  split <;> rfl

theorem ReadExplicitVRTag_Length (file : File) :
    (ReadExplicitVRTag file).1.Length = (readExplicitLength (file.window 0 2) (file.Read 2).2).1 := by
  unfold ReadExplicitVRTag
  simp only
  split <;> rfl

theorem ReadExplicitVRTag_sq (file : File) (h : file.window 0 2 = bytesOf "SQ") :
    ReadExplicitVRTag file =
      ({ Group := 0, Element := 0, VR := file.window 0 2,
         Length := (readExplicitLength (file.window 0 2) (file.Read 2).2).1, Value := none },
       (readExplicitLength (file.window 0 2) (file.Read 2).2).2) := by
  unfold ReadExplicitVRTag
  simp only [Read_buf]
  rw [if_pos h]

theorem ReadExplicitVRTag_leaf (file : File) (h : file.window 0 2 ≠ bytesOf "SQ") :
    ReadExplicitVRTag file =
      ({ Group := 0, Element := 0, VR := file.window 0 2,
         Length := (readExplicitLength (file.window 0 2) (file.Read 2).2).1,
         Value := some (((readExplicitLength (file.window 0 2) (file.Read 2).2).2.Read
            (readExplicitLength (file.window 0 2) (file.Read 2).2).1).1) },
       ((readExplicitLength (file.window 0 2) (file.Read 2).2).2.Read
            (readExplicitLength (file.window 0 2) (file.Read 2).2).1).2) := by
  unfold ReadExplicitVRTag
  simp only [Read_buf]
  rw [if_neg h]

theorem ReadExplicitVRTag_short (file : File) (hs : file.window 0 2 ∈ shortFormVRs) :
    (ReadExplicitVRTag file).1.Length = littleEndian (file.window 2 2) ∧
    (ReadExplicitVRTag file).1.Value
      = some (file.window 4 (ReadExplicitVRTag file).1.Length) := by
  have hsq : file.window 0 2 ≠ bytesOf "SQ" := fun h => sq_not_short (h ▸ hs)
  rw [ReadExplicitVRTag_leaf file hsq, readExplicitLength_short _ _ hs]
  simp only [Read_buf, Read_window, Uint16_window, Nat.add_zero]
  exact ⟨trivial, trivial⟩

theorem ReadExplicitVRTag_long_Length (file : File) (hl : file.window 0 2 ∉ shortFormVRs) :
    (ReadExplicitVRTag file).1.Length = littleEndian (file.window 4 4) := by
  rw [ReadExplicitVRTag_Length, readExplicitLength_long _ _ hl]
  simp only [Read_buf]
  rw [Uint32_window]
  have := Seek_forward_window (file.Read 2).2 2 0 4
  simp only [Nat.cast_ofNat] at this
  rw [this, Read_window]

theorem ReadExplicitVRTag_long_Value (file : File) (hl : file.window 0 2 ∉ shortFormVRs)
    (hsq : file.window 0 2 ≠ bytesOf "SQ") :
    (ReadExplicitVRTag file).1.Value
      = some (file.window 8 (ReadExplicitVRTag file).1.Length) := by
  rw [ReadExplicitVRTag_leaf file hsq, readExplicitLength_long _ _ hl]
  simp only [Read_buf, Read_window]
  have h1 := fun m => Seek_forward_window (file.Read 2).2 2 0 m
  have h2 := fun m => Seek_forward_window (file.Read 2).2 2 4 m
  simp only [Nat.cast_ofNat] at h1 h2
  rw [h1, h2, Read_window, Read_window]

/-- C3. `ReadExplicitVRTag` takes the 2 bytes at offsets 0..1 as the VR.  For a
VR among the 21 short-form codes, Length is the little-endian value of the
bytes at offsets 2..3 and the value is the Length bytes from offset 4 on.
For every other VR the bytes at offsets 2..3 play no part: Length is the
little-endian value of the bytes at offsets 4..7 and the value (none for
`SQ`) is the Length bytes from offset 8 on.  Offsets past the end of the
stream read as zero, as the zero-initialised buffers leave them. -/
theorem ReadExplicitVRTag_layout (file : File) :
    (ReadExplicitVRTag file).1.VR = file.window 0 2 ∧
    ((ReadExplicitVRTag file).1.VR ∈ shortFormVRs →
      (ReadExplicitVRTag file).1.Length = littleEndian (file.window 2 2) ∧
      (ReadExplicitVRTag file).1.Value
        = some (file.window 4 (ReadExplicitVRTag file).1.Length)) ∧
    ((ReadExplicitVRTag file).1.VR ∉ shortFormVRs →
      (ReadExplicitVRTag file).1.Length = littleEndian (file.window 4 4) ∧
      ((ReadExplicitVRTag file).1.VR ≠ bytesOf "SQ" →
        (ReadExplicitVRTag file).1.Value
          = some (file.window 8 (ReadExplicitVRTag file).1.Length)) ∧
      ((ReadExplicitVRTag file).1.VR = bytesOf "SQ" →
        (ReadExplicitVRTag file).1.Value = none)) := by
  refine ⟨ReadExplicitVRTag_VR file, ?_, ?_⟩
  · rw [ReadExplicitVRTag_VR]
    exact ReadExplicitVRTag_short file
  · rw [ReadExplicitVRTag_VR]
    intro hl
    refine ⟨ReadExplicitVRTag_long_Length file hl, ReadExplicitVRTag_long_Value file hl, ?_⟩
    intro hsq
    rw [ReadExplicitVRTag_sq file hsq]

theorem Read_pos_of_le (f : File) (n : Nat) (h : f.pos + n ≤ f.data.length) :
    (f.Read n).2.pos = f.pos + n := by
  rw [Read_pos, Nat.min_eq_left (by omega)]

theorem Read_buf_of_le (f : File) (n : Nat) (h : f.pos + n ≤ f.data.length) :
    (f.Read n).1 = (f.data.drop f.pos).take n := by
  rw [Read_buf, window_of_le f 0 n (by omega), Nat.add_zero]

theorem readExplicitLength_data (vr : List Nat) (f : File) :
    (readExplicitLength vr f).2.data = f.data := by
  unfold readExplicitLength
  split
  · rfl
  · simp only [Read_data, Seek_data]

theorem readExplicitLength_pos (vr : List Nat) (f : File)
    (h : f.pos + (explicitHeaderSize vr - 2) ≤ f.data.length) :
    (readExplicitLength vr f).2.pos = f.pos + (explicitHeaderSize vr - 2) := by
  unfold explicitHeaderSize at h ⊢
  by_cases hs : vr ∈ shortFormVRs
  · rw [if_pos hs] at h ⊢
    rw [readExplicitLength_short _ _ hs]
    exact Read_pos_of_le f 2 h
  · rw [if_neg hs] at h ⊢
    rw [readExplicitLength_long _ _ hs]
    have hp := Seek_forward_pos f 2
    simp only [Nat.cast_ofNat] at hp
    have hd := Seek_data f 2 1
    simp only
    rw [Read_pos_of_le _ 4 (by rw [hp, hd]; omega), hp]

/-- C4. When the stream holds the header of an explicit element and as many
bytes after it as the tag's Length says: for VR `SQ`, `ReadExplicitVRTag`
returns the declared length (the little-endian value of the bytes at
offsets 4..7), no Value, and leaves the cursor exactly 8 bytes further on;
for any other VR, Value is exactly the Length bytes that follow the length
field and the cursor ends immediately after them, so that a length of 0
gives an empty Value and consumes nothing beyond the header. -/
theorem ReadExplicitVRTag_cursor (file : File)
    (h : file.pos + explicitHeaderSize (file.window 0 2) + (ReadExplicitVRTag file).1.Length
          ≤ file.data.length) :
    ((ReadExplicitVRTag file).1.VR = bytesOf "SQ" →
      (ReadExplicitVRTag file).1.Length = littleEndian ((file.data.drop (file.pos + 4)).take 4) ∧
      (ReadExplicitVRTag file).1.Value = none ∧
      (ReadExplicitVRTag file).2.pos = file.pos + 8) ∧
    ((ReadExplicitVRTag file).1.VR ≠ bytesOf "SQ" →
      (ReadExplicitVRTag file).1.Value
        = some ((file.data.drop (file.pos + explicitHeaderSize (file.window 0 2))).take
            (ReadExplicitVRTag file).1.Length) ∧
      (ReadExplicitVRTag file).2.pos
        = file.pos + explicitHeaderSize (file.window 0 2) + (ReadExplicitVRTag file).1.Length ∧
      ((ReadExplicitVRTag file).1.Length = 0 →
        (ReadExplicitVRTag file).1.Value = some [] ∧
        (ReadExplicitVRTag file).2.pos = file.pos + explicitHeaderSize (file.window 0 2))) := by
  have hsz : 4 ≤ explicitHeaderSize (file.window 0 2) := by
    unfold explicitHeaderSize; split <;> omega
  have hp2 : (file.Read 2).2.pos = file.pos + 2 := Read_pos_of_le file 2 (by omega)
  have hpl : (readExplicitLength (file.window 0 2) (file.Read 2).2).2.pos
      = file.pos + explicitHeaderSize (file.window 0 2) := by
    rw [readExplicitLength_pos _ _ (by rw [hp2, Read_data]; omega), hp2]
    omega
  have hdl : (readExplicitLength (file.window 0 2) (file.Read 2).2).2.data = file.data := by
    rw [readExplicitLength_data, Read_data]
  rw [ReadExplicitVRTag_VR]
  constructor
  · intro hsq
    have hl : file.window 0 2 ∉ shortFormVRs := fun hm => sq_not_short (hsq ▸ hm)
    have h8 : explicitHeaderSize (file.window 0 2) = 8 := by
      unfold explicitHeaderSize; rw [if_neg hl]
    refine ⟨?_, ?_, ?_⟩
    · rw [ReadExplicitVRTag_long_Length file hl, window_of_le file 4 4 (by omega)]
    · rw [ReadExplicitVRTag_sq file hsq]
    · rw [ReadExplicitVRTag_sq file hsq]
      simp only
      rw [hpl, h8]
  · intro hsq
    have hL := ReadExplicitVRTag_Length file
    rw [ReadExplicitVRTag_leaf file hsq] at h hL ⊢
    simp only at h hL ⊢
    have hv : ((readExplicitLength (file.window 0 2) (file.Read 2).2).2.Read
        (readExplicitLength (file.window 0 2) (file.Read 2).2).1).1
        = (file.data.drop (file.pos + explicitHeaderSize (file.window 0 2))).take
            (readExplicitLength (file.window 0 2) (file.Read 2).2).1 := by
      rw [Read_buf_of_le _ _ (by rw [hpl, hdl]; exact h), hpl, hdl]
    have hc : ((readExplicitLength (file.window 0 2) (file.Read 2).2).2.Read
        (readExplicitLength (file.window 0 2) (file.Read 2).2).1).2.pos
        = file.pos + explicitHeaderSize (file.window 0 2)
            + (readExplicitLength (file.window 0 2) (file.Read 2).2).1 := by
      rw [Read_pos_of_le _ _ (by rw [hpl, hdl]; exact h), hpl]
    refine ⟨by rw [hv], hc, ?_⟩
    intro h0
    rw [hv, hc, h0]
    exact ⟨rfl, rfl⟩

/-- C5. When the stream holds 4 + Length bytes, `ReadImplicitVRTag` returns a
tag whose Length is the little-endian value of the first 4 bytes, whose
Value is exactly the Length bytes that follow, whose VR is empty, and
leaves the cursor exactly 4 + Length bytes further on. -/
theorem ReadImplicitVRTag_spec (file : File)
    (h : file.pos + 4 + littleEndian ((file.data.drop file.pos).take 4) ≤ file.data.length) :
    (ReadImplicitVRTag file).1.Length = littleEndian ((file.data.drop file.pos).take 4) ∧
    (ReadImplicitVRTag file).1.Value
      = some ((file.data.drop (file.pos + 4)).take (ReadImplicitVRTag file).1.Length) ∧
    (ReadImplicitVRTag file).1.VR = [] ∧
    (ReadImplicitVRTag file).2.pos = file.pos + 4 + (ReadImplicitVRTag file).1.Length := by
  have hp4 : (file.Read 4).2.pos = file.pos + 4 := Read_pos_of_le file 4 (by omega)
  have hb4 : (file.Read 4).1 = (file.data.drop file.pos).take 4 := Read_buf_of_le file 4 (by omega)
  have hu : Uint32 (file.Read 4).1 = littleEndian ((file.data.drop file.pos).take 4) := by
    rw [Read_buf, Uint32_window, ← Read_buf, hb4]
  unfold ReadImplicitVRTag
  simp only
  rw [hu]
  have hle : (file.Read 4).2.pos + littleEndian ((file.data.drop file.pos).take 4)
      ≤ (file.Read 4).2.data.length := by rw [hp4, Read_data]; exact h
  refine ⟨rfl, ?_, trivial, ?_⟩
  · rw [Read_buf_of_le _ _ hle, hp4, Read_data]
  · rw [Read_pos_of_le _ _ hle, hp4]

/-- C8. On every stream, truncated ones included, a tag returned by
`ReadExplicitVRTag` or by `ReadImplicitVRTag` that carries a Value has
`len(Value) = Length`. -/
theorem decoded_value_length (file : File) (v : List Nat) :
    ((ReadExplicitVRTag file).1.Value = some v → v.length = (ReadExplicitVRTag file).1.Length) ∧
    ((ReadImplicitVRTag file).1.Value = some v → v.length = (ReadImplicitVRTag file).1.Length) := by
  constructor
  · by_cases hsq : file.window 0 2 = bytesOf "SQ"
    · rw [ReadExplicitVRTag_sq file hsq]
      intro hv
      simp at hv
    · rw [ReadExplicitVRTag_leaf file hsq]
      intro hv
      simp only [Option.some.injEq] at hv
      rw [← hv, Read_buf, window_length]
  · unfold ReadImplicitVRTag
    intro hv
    simp only [Option.some.injEq] at hv
    rw [← hv, Read_buf, window_length]

/-! ## Progress of the cursor -/

theorem Read_pos_le (f : File) (n : Nat) : f.pos ≤ (f.Read n).2.pos := by
  rw [Read_pos]; omega

theorem window_past_end (f : File) (i n : Nat) (h : f.data.length ≤ f.pos + i) :
    f.window i n = List.replicate n 0 := by
  unfold File.window
  rw [List.drop_eq_nil_of_le h, padTake_nil]

theorem Uint16_replicate_zero : Uint16 (List.replicate 2 0) = 0 := by decide

/-- A 2-byte read that decodes to a non-zero value consumed a byte that
was present. -/
theorem Read2_progress (f : File) (h : Uint16 (f.Read 2).1 ≠ 0) :
    f.pos < f.data.length ∧ f.pos < (f.Read 2).2.pos := by
  have hlt : f.pos < f.data.length := by
    by_contra hc
    apply h
    rw [Read_buf, window_past_end f 0 2 (by omega)]
    exact Uint16_replicate_zero
  refine ⟨hlt, ?_⟩
  rw [Read_pos]
  omega

theorem ReadGroupAndElement_data (f : File) : (ReadGroupAndElement f).2.data = f.data := rfl

theorem ReadGroupAndElement_pos_le (f : File) : f.pos ≤ (ReadGroupAndElement f).2.pos := by
  unfold ReadGroupAndElement
  exact Nat.le_trans (Read_pos_le f 2) (Read_pos_le _ 2)

/-- A pair other than (0, 0) was decoded from at least one byte that was
present. -/
theorem ReadGroupAndElement_progress (f : File)
    (h : ¬ ((ReadGroupAndElement f).1.1 = 0 ∧ (ReadGroupAndElement f).1.2 = 0)) :
    f.pos < f.data.length ∧ f.pos < (ReadGroupAndElement f).2.pos := by
  unfold ReadGroupAndElement at h ⊢
  simp only at h ⊢
  by_cases hg : Uint16 (f.Read 2).1 = 0
  · have he : Uint16 ((f.Read 2).2.Read 2).1 ≠ 0 := fun he => h ⟨hg, he⟩
    have hp := Read2_progress (f.Read 2).2 he
    have h1 := Read_pos_le f 2
    rw [Read_data] at hp
    omega
  · have hp := Read2_progress f hg
    have h1 := Read_pos_le (f.Read 2).2 2
    omega

theorem readExplicitLength_pos_le (vr : List Nat) (f : File) :
    f.pos ≤ (readExplicitLength vr f).2.pos := by
  unfold readExplicitLength
  split
  · exact Read_pos_le f 2
  · have hp := Seek_forward_pos f 2
    simp only [Nat.cast_ofNat] at hp
    have h1 := Read_pos_le (f.Seek 2 1) 4
    simp only
    omega

theorem ReadExplicitVRTag_data (f : File) : (ReadExplicitVRTag f).2.data = f.data := by
  unfold ReadExplicitVRTag
  simp only
  split
  · rw [readExplicitLength_data, Read_data]
  · rw [Read_data, readExplicitLength_data, Read_data]

theorem ReadExplicitVRTag_pos_le (f : File) : f.pos ≤ (ReadExplicitVRTag f).2.pos := by
  unfold ReadExplicitVRTag
  simp only
  have h1 := Read_pos_le f 2
  have h2 := readExplicitLength_pos_le (f.Read 2).1 (f.Read 2).2
  split
  · dsimp only
    omega
  · have h3 := Read_pos_le (readExplicitLength (f.Read 2).1 (f.Read 2).2).2
      (readExplicitLength (f.Read 2).1 (f.Read 2).2).1
    dsimp only
    omega

theorem ReadImplicitVRTag_data (f : File) : (ReadImplicitVRTag f).2.data = f.data := rfl

theorem ReadImplicitVRTag_pos_le (f : File) : f.pos ≤ (ReadImplicitVRTag f).2.pos := by
  unfold ReadImplicitVRTag
  exact Nat.le_trans (Read_pos_le f 4) (Read_pos_le _ _)

/-! ## The meta-header loop -/

theorem metaStep_next (s s1 : MetaState) (o : List Nat) (h : metaStep s = .next s1 o) :
    s1.file.data = s.file.data ∧ s.file.pos < s.file.data.length ∧ s.file.pos < s1.file.pos := by
  unfold metaStep at h
  simp only at h
  split at h
  · exact MetaStep.noConfusion h
  · rename_i hg
    split at h
    · exact MetaStep.noConfusion h
    · injection h with hs ho
      subst hs
      simp only
      have hne : ¬ ((ReadGroupAndElement s.file).1.1 = 0 ∧ (ReadGroupAndElement s.file).1.2 = 0) := by
        intro hc
        rw [hc.1] at hg
        exact hg (by decide)
      have hp := ReadGroupAndElement_progress s.file hne
      have h2 := ReadExplicitVRTag_pos_le (ReadGroupAndElement s.file).2
      refine ⟨by rw [ReadExplicitVRTag_data, ReadGroupAndElement_data], hp.1, by omega⟩

theorem metaStep_stop (s s1 : MetaState) (g e : Nat) (h : metaStep s = .stop g e s1) :
    s1.file.data = s.file.data ∧
    g = (ReadGroupAndElement s.file).1.1 ∧ e = (ReadGroupAndElement s.file).1.2 ∧ g ≠ 2 ∧
    s1 = { s with file := (ReadGroupAndElement s.file).2.Seek (-4) 1 } := by
  unfold metaStep at h
  simp only at h
  split at h
  · rename_i hg
    injection h with h1 h2 h3
    subst h1 h2 h3
    exact ⟨by simp only [Seek_data, ReadGroupAndElement_data], rfl, rfl, hg, rfl⟩
  · split at h <;> exact MetaStep.noConfusion h

/-- The meta-header loop ends within `remaining + 1` iterations. -/
theorem metaLoop_total (fuel : Nat) :
    ∀ (s : MetaState) (out : List Nat), s.file.data.length - s.file.pos < fuel →
      ∃ r, metaLoop fuel s out = some r := by
  induction fuel with
  | zero => intro s out h; omega
  | succ k ih =>
    intro s out h
    unfold metaLoop
    cases hm : metaStep s with
    | stop g e s1 => exact ⟨_, rfl⟩
    | panic o => exact ⟨_, rfl⟩
    | next s1 o =>
      have hp := metaStep_next s s1 o hm
      exact ih s1 (out ++ o) (by rw [hp.1]; omega)

/-- The loop leaves the file content alone and only adds output. -/
theorem metaLoop_done (fuel : Nat) :
    ∀ (s : MetaState) (out : List Nat) (g e : Nat) (s1 : MetaState) (out1 : List Nat),
      metaLoop fuel s out = some (.done g e s1 out1) →
      s1.file.data = s.file.data ∧ out <+: out1 := by
  induction fuel with
  | zero => intro s out g e s1 out1 h; exact Option.noConfusion h
  | succ k ih =>
    intro s out g e s1 out1 h
    unfold metaLoop at h
    cases hm : metaStep s with
    | stop g0 e0 s0 =>
      rw [hm] at h
      simp only [Option.some.injEq, MetaEnd.done.injEq] at h
      obtain ⟨_, _, hs, ho⟩ := h
      subst hs ho
      exact ⟨(metaStep_stop s _ _ _ hm).1, List.prefix_refl _⟩
    | panic o =>
      rw [hm] at h
      simp only [Option.some.injEq] at h
      exact MetaEnd.noConfusion h
    | next s0 o =>
      rw [hm] at h
      simp only at h
      have hp := metaStep_next s s0 o hm
      have := ih s0 (out ++ o) g e s1 out1 h
      exact ⟨this.1.trans hp.1, (List.prefix_append out o).trans this.2⟩

theorem metaLoop_panic (fuel : Nat) :
    ∀ (s : MetaState) (out out1 : List Nat),
      metaLoop fuel s out = some (.panic out1) → out <+: out1 := by
  induction fuel with
  | zero => intro s out out1 h; exact Option.noConfusion h
  | succ k ih =>
    intro s out out1 h
    unfold metaLoop at h
    cases hm : metaStep s with
    | stop g0 e0 s0 =>
      rw [hm] at h
      simp only [Option.some.injEq] at h
      exact MetaEnd.noConfusion h
    | panic o =>
      rw [hm] at h
      simp only [Option.some.injEq, MetaEnd.panic.injEq] at h
      subst h
      exact List.prefix_append out o
    | next s0 o =>
      rw [hm] at h
      simp only at h
      exact (List.prefix_append out o).trans (ih s0 (out ++ o) out1 h)

/-! ## The data-set loop -/

theorem dataStep_next (x : Bool) (s s1 : DataState) (o : List Nat)
    (h : dataStep x s = .next s1 o) :
    s1.file.data = s.file.data ∧ s.file.pos < s.file.data.length ∧ s.file.pos < s1.file.pos := by
  have hd : (if x = true then ReadExplicitVRTag (ReadGroupAndElement s.file).2
      else ReadImplicitVRTag (ReadGroupAndElement s.file).2).2.data = s.file.data := by
    split
    · rw [ReadExplicitVRTag_data, ReadGroupAndElement_data]
    · rw [ReadImplicitVRTag_data, ReadGroupAndElement_data]
  have hq : (ReadGroupAndElement s.file).2.pos ≤
      (if x = true then ReadExplicitVRTag (ReadGroupAndElement s.file).2
      else ReadImplicitVRTag (ReadGroupAndElement s.file).2).2.pos := by
    split
    · exact ReadExplicitVRTag_pos_le _
    · exact ReadImplicitVRTag_pos_le _
  unfold dataStep at h
  simp only at h
  generalize (if x = true then ReadExplicitVRTag (ReadGroupAndElement s.file).2
      else ReadImplicitVRTag (ReadGroupAndElement s.file).2) = t at h hd hq
  split at h
  · exact DataStep.noConfusion h
  · rename_i hne
    have hp := ReadGroupAndElement_progress s.file hne
    split at h
    · injection h with hs ho
      subst hs
      have h4 := Read_pos_le (ReadGroupAndElement s.file).2 4
      dsimp only
      exact ⟨rfl, hp.1, by omega⟩
    · split at h
      · injection h with hs ho
        subst hs
        dsimp only
        exact ⟨hd, hp.1, by omega⟩
      · split at h
        · exact DataStep.noConfusion h
        · injection h with hs ho
          subst hs
          dsimp only
          exact ⟨hd, hp.1, by omega⟩

/-- The data-set loop ends within `remaining + 1` iterations. -/
theorem dataLoop_total (x : Bool) (fuel : Nat) :
    ∀ (s : DataState) (out : List Nat), s.file.data.length - s.file.pos < fuel →
      ∃ run, dataLoop x fuel s out = some run := by
  induction fuel with
  | zero => intro s out h; omega
  | succ k ih =>
    intro s out h
    unfold dataLoop
    cases hm : dataStep x s with
    | stop => exact ⟨_, rfl⟩
    | panic o => exact ⟨_, rfl⟩
    | next s1 o =>
      have hp := dataStep_next x s s1 o hm
      exact ih s1 (out ++ o) (by rw [hp.1]; omega)

/-- The data-set loop only adds output, and it ends by returning `nil` or
by a panic. -/
theorem dataLoop_run (x : Bool) (fuel : Nat) :
    ∀ (s : DataState) (out : List Nat) (run : Run), dataLoop x fuel s out = some run →
      out <+: run.stdout ∧ (run.outcome = .returned none ∨ run.outcome = .panicked) := by
  induction fuel with
  | zero => intro s out run h; exact Option.noConfusion h
  | succ k ih =>
    intro s out run h
    unfold dataLoop at h
    cases hm : dataStep x s with
    | stop =>
      rw [hm] at h
      simp only [Option.some.injEq] at h
      subst h
      exact ⟨List.prefix_refl _, Or.inl rfl⟩
    | panic o =>
      rw [hm] at h
      simp only [Option.some.injEq] at h
      subst h
      exact ⟨List.prefix_append out o, Or.inr rfl⟩
    | next s1 o =>
      rw [hm] at h
      simp only at h
      have := ih s1 (out ++ o) run h
      exact ⟨(List.prefix_append out o).trans this.1, this.2⟩

/-! ## The whole parse -/

/-- From line 32 on the parse ends, for every file, with `len(file) + 1`
iterations for each loop; it has then written the `Meta Header:` line
first, and it has returned `nil` or panicked. -/
theorem parseBody_total (file : File) :
    ∃ run, parseBody (file.data.length + 1) file = some run ∧
      bytesOf "Meta Header:\n" <+: run.stdout ∧
      (run.outcome = .returned none ∨ run.outcome = .panicked) := by
  unfold parseBody
  obtain ⟨r, hr⟩ := metaLoop_total (file.data.length + 1)
    { file := file, transferSyntaxUID := [] } (bytesOf "Meta Header:\n") (by dsimp only; omega)
  rw [hr]
  cases r with
  | panic out =>
    exact ⟨_, rfl, metaLoop_panic _ _ _ _ hr, Or.inr rfl⟩
  | done g e s out =>
    have hd := metaLoop_done _ _ _ _ _ _ _ hr
    dsimp only at hd ⊢
    obtain ⟨run, hrun⟩ := dataLoop_total (isExplicitVR s.transferSyntaxUID) (file.data.length + 1)
      { file := s.file, seqDepth := 0, seqLengthRemaining := 0 }
      (out ++ bytesOf "\n" ++ bytesOf "Data Set:\n") (by dsimp only; rw [hd.1]; omega)
    have hp := dataLoop_run _ _ _ _ _ hrun
    refine ⟨run, hrun, ?_, hp.2⟩
    refine hd.2.trans (List.IsPrefix.trans ?_ hp.1)
    rw [List.append_assoc]
    exact List.prefix_append _ _

theorem readPreamble_eq (f : File) :
    readPreamble f = (padTake 4 (f.data.drop 128),
      { data := f.data, pos := 128 + ((f.data.drop 128).take 4).length }) := by
  unfold readPreamble File.Seek File.Read
  simp

theorem readPreamble_magic (f : File) :
    (readPreamble f).1 = bytesOf "DICM" ↔ (f.data.drop 128).take 4 = bytesOf "DICM" := by
  rw [readPreamble_eq]
  dsimp only
  by_cases h : 4 ≤ (f.data.drop 128).length
  · rw [padTake_of_le _ _ h]
  · constructor
    · intro hc
      exfalso
      unfold padTake at hc
      have hl : ((f.data.drop 128).take 4).length < 4 := by
        rw [List.length_take]; omega
      have hz : (0 : Nat) ∈ bytesOf "DICM" := by
        rw [← hc]
        apply List.mem_append_right
        rw [List.mem_replicate]
        exact ⟨by omega, rfl⟩
      revert hz
      decide
    · intro hc
      exfalso
      have := congrArg List.length hc
      rw [List.length_take] at this
      have h4 : (bytesOf "DICM").length = 4 := by decide
      omega

theorem readPreamble_file (f : File) (h : (f.data.drop 128).take 4 = bytesOf "DICM") :
    (readPreamble f).2 = { data := f.data, pos := 132 } := by
  rw [readPreamble_eq, h]
  rfl

/-! ## Running the code step by step -/

theorem ReadExplicitVRTag_of_leaf (f f1 f2 f3 : File) (vr v : List Nat) (n : Nat)
    (h1 : f.Read 2 = (vr, f1)) (h2 : readExplicitLength vr f1 = (n, f2))
    (hsq : vr ≠ bytesOf "SQ") (h3 : f2.Read n = (v, f3)) :
    ReadExplicitVRTag f
      = ({ Group := 0, Element := 0, VR := vr, Length := n, Value := some v }, f3) := by
  unfold ReadExplicitVRTag
  rw [h1]
  dsimp only
  rw [h2, if_neg hsq]
  dsimp only
  rw [h3]

theorem ReadExplicitVRTag_of_sq (f f1 f2 : File) (n : Nat)
    (h1 : f.Read 2 = (bytesOf "SQ", f1)) (h2 : readExplicitLength (bytesOf "SQ") f1 = (n, f2)) :
    ReadExplicitVRTag f
      = ({ Group := 0, Element := 0, VR := bytesOf "SQ", Length := n, Value := none }, f2) := by
  unfold ReadExplicitVRTag
  rw [h1]
  dsimp only
  rw [h2, if_pos rfl]

theorem PrintTag_text (tag : Tag) (depth : Nat) (h1 : tag.Length ≤ 1024)
    (h2 : tag.Length ≠ 1 ∧ tag.Length ≠ 2 ∧ tag.Length ≠ 4 ∧ tag.Length ≠ 8) :
    PrintTag tag depth
      = ⟨List.replicate (2 * depth) 32 ++ tagHeader tag.Group tag.Element tag.VR tag.Length
          ++ tag.valueBytes ++ [10], false⟩ := by
  unfold PrintTag printValue
  have hd : ¬ ((depth : Int) * 2 < 0) := by omega
  have ht : ((depth : Int) * 2).toNat = 2 * depth := by omega
  rw [if_neg hd, if_neg (by omega), if_neg h2.1, if_neg h2.2.1, if_neg h2.2.2.1,
    if_neg h2.2.2.2, ht]

theorem metaStep_of_next (s : MetaState) (e : Nat) (f1 f2 : File) (t : Tag) (o : List Nat)
    (h1 : ReadGroupAndElement s.file = ((2, e), f1)) (h2 : ReadExplicitVRTag f1 = (t, f2))
    (h3 : PrintTag { t with Group := 2, Element := e } 0 = ⟨o, false⟩) :
    metaStep s = .next
      { file := f2, transferSyntaxUID := if e = 0x0010 then t.Value.getD [] else s.transferSyntaxUID }
      o := by
  unfold metaStep
  rw [h1]
  dsimp only
  rw [if_neg (by decide), h2]
  dsimp only
  rw [h3]
  rfl

theorem metaStep_of_stop (s : MetaState) (g e : Nat) (f1 : File)
    (h1 : ReadGroupAndElement s.file = ((g, e), f1)) (hg : g ≠ 2) :
    metaStep s = .stop g e { s with file := f1.Seek (-4) 1 } := by
  unfold metaStep
  rw [h1]
  dsimp only
  rw [if_pos hg]

theorem metaLoop_of_next (fuel : Nat) (s s1 : MetaState) (out o : List Nat)
    (h : metaStep s = .next s1 o) :
    metaLoop (fuel + 1) s out = metaLoop fuel s1 (out ++ o) := by
  rw [metaLoop, h]

theorem metaLoop_of_stop (fuel : Nat) (s s1 : MetaState) (g e : Nat) (out : List Nat)
    (h : metaStep s = .stop g e s1) :
    metaLoop (fuel + 1) s out = some (.done g e s1 out) := by
  rw [metaLoop, h]

/-! ## The minimal file, for every padding byte -/

set_option maxRecDepth 100000 in
theorem minimalFile_preamble (pad : Nat) :
    readPreamble (minimalFile pad) = (bytesOf "DICM", minimalFileAt pad 132) := by
  rfl

theorem minimalFile_length (pad : Nat) : (minimalFile pad).data.length = 162 := by
  rfl

set_option maxRecDepth 100000 in
theorem minimalFile_tag1 (pad : Nat) :
    ReadGroupAndElement (minimalFileAt pad 132) = ((2, 16), minimalFileAt pad 136) := by
  rfl

set_option maxRecDepth 100000 in
theorem minimalFile_vr (pad : Nat) :
    (minimalFileAt pad 136).Read 2 = (bytesOf "UI", minimalFileAt pad 138) := by
  rfl

set_option maxRecDepth 100000 in
theorem minimalFile_len (pad : Nat) :
    readExplicitLength (bytesOf "UI") (minimalFileAt pad 138) = (18, minimalFileAt pad 140) := by
  rfl

set_option maxRecDepth 100000 in
theorem minimalFile_value (pad : Nat) :
    (minimalFileAt pad 140).Read 18
      = (bytesOf "1.2.840.10008.1.2" ++ [pad], minimalFileAt pad 158) := by
  rfl

theorem minimalFile_element (pad : Nat) :
    ReadExplicitVRTag (minimalFileAt pad 136)
      = ({ Group := 0, Element := 0, VR := bytesOf "UI", Length := 18,
           Value := some (bytesOf "1.2.840.10008.1.2" ++ [pad]) }, minimalFileAt pad 158) :=
  ReadExplicitVRTag_of_leaf (minimalFileAt pad 136) (minimalFileAt pad 138)
    (minimalFileAt pad 140) (minimalFileAt pad 158) (bytesOf "UI")
    (bytesOf "1.2.840.10008.1.2" ++ [pad]) 18
    (minimalFile_vr pad) (minimalFile_len pad) (by decide) (minimalFile_value pad)

theorem minimalFile_print (pad : Nat) :
    PrintTag { Group := 2, Element := 16, VR := bytesOf "UI", Length := 18,
               Value := some (bytesOf "1.2.840.10008.1.2" ++ [pad]) } 0
      = ⟨bytesOf "(0002,0010) UI(18) " ++ (bytesOf "1.2.840.10008.1.2" ++ [pad]) ++ [10],
         false⟩ := by
  have h := PrintTag_text ⟨2, 16, bytesOf "UI", 18, some (bytesOf "1.2.840.10008.1.2" ++ [pad])⟩
    0 (by dsimp only; decide) (by dsimp only; decide)
  have h1 : tagHeader 2 16 (bytesOf "UI") 18 = bytesOf "(0002,0010) UI(18) " := by rfl
  rw [h1] at h
  exact h

set_option maxRecDepth 100000 in
theorem minimalFile_tag2 (pad : Nat) :
    ReadGroupAndElement (minimalFileAt pad 158) = ((0, 0), minimalFileAt pad 162) := by
  rfl

theorem minimalFile_seek (pad : Nat) :
    (minimalFileAt pad 162).Seek (-4) 1 = minimalFileAt pad 158 := by
  rfl

theorem minimalFile_step1 (pad : Nat) :
    metaStep { file := minimalFileAt pad 132, transferSyntaxUID := [] }
      = .next { file := minimalFileAt pad 158,
                transferSyntaxUID := bytesOf "1.2.840.10008.1.2" ++ [pad] }
          (bytesOf "(0002,0010) UI(18) " ++ (bytesOf "1.2.840.10008.1.2" ++ [pad]) ++ [10]) :=
  metaStep_of_next { file := minimalFileAt pad 132, transferSyntaxUID := [] } 16
    (minimalFileAt pad 136) (minimalFileAt pad 158) _ _
    (minimalFile_tag1 pad) (minimalFile_element pad) (minimalFile_print pad)

theorem minimalFile_step2 (pad : Nat) (ts : List Nat) :
    metaStep { file := minimalFileAt pad 158, transferSyntaxUID := ts }
      = .stop 0 0 { file := minimalFileAt pad 158, transferSyntaxUID := ts } := by
  have h := metaStep_of_stop { file := minimalFileAt pad 158, transferSyntaxUID := ts } 0 0
    (minimalFileAt pad 162) (minimalFile_tag2 pad) (by decide)
  rw [minimalFile_seek] at h
  exact h

theorem isExplicitVR_padded (pad : Nat) :
    isExplicitVR (bytesOf "1.2.840.10008.1.2" ++ [pad]) = true := by
  rfl

/-- C1 (the code at the scenario's file). For every padding byte the minimal
file passes the marker check, the meta-header loop ends at the (0000,0000)
pair with the 18 bytes of the value (the 17 characters and the padding byte)
as the captured transfer syntax, and `isExplicitVR` stays true: explicit
mode is selected, not implicit mode. -/
theorem minimalFile_selects_explicit (pad : Nat) :
    (readPreamble (minimalFile pad)).1 = bytesOf "DICM" ∧
    ∃ s out,
      metaLoop ((minimalFile pad).data.length + 1)
        { file := (readPreamble (minimalFile pad)).2, transferSyntaxUID := [] }
        (bytesOf "Meta Header:\n") = some (.done 0 0 s out) ∧
      s.transferSyntaxUID = bytesOf "1.2.840.10008.1.2" ++ [pad] ∧
      isExplicitVR s.transferSyntaxUID = true := by
  rw [minimalFile_preamble, minimalFile_length]
  refine ⟨rfl, ⟨{ file := minimalFileAt pad 158,
                  transferSyntaxUID := bytesOf "1.2.840.10008.1.2" ++ [pad] },
    bytesOf "Meta Header:\n"
      ++ (bytesOf "(0002,0010) UI(18) " ++ (bytesOf "1.2.840.10008.1.2" ++ [pad]) ++ [10]),
    ?_, rfl, isExplicitVR_padded pad⟩⟩
  dsimp only
  rw [metaLoop_of_next 162 _ _ _ _ (minimalFile_step1 pad),
    metaLoop_of_stop 161 _ _ 0 0 _ (minimalFile_step2 pad _)]

/-! ## The rewind at the end of the meta header -/

theorem ReadGroupAndElement_full (f : File) (h : f.pos + 4 ≤ f.data.length) :
    (ReadGroupAndElement f).2 = { f with pos := f.pos + 4 } := by
  unfold ReadGroupAndElement
  dsimp only
  have h1 : (f.Read 2).2.pos = f.pos + 2 := Read_pos_of_le f 2 (by omega)
  have h2 : ((f.Read 2).2.Read 2).2.pos = f.pos + 4 := by
    rw [Read_pos_of_le _ 2 (by rw [h1, Read_data]; omega), h1]
  show ({ data := f.data, pos := ((f.Read 2).2.Read 2).2.pos } : File) = _
  rw [h2]

theorem Seek_back_four (f : File) (k : Nat) :
    ({ f with pos := k + 4 } : File).Seek (-4) 1 = { f with pos := k } := by
  unfold File.Seek
  dsimp only
  have h : ¬ ((if (1 : Nat) = 0 then (0 : Int) else if (1 : Nat) = 1 then ((k + 4 : Nat) : Int)
      else (f.data.length : Int)) + -4 < 0) := by
    simp only [OfNat.ofNat_ne_zero, if_false, if_true]
    omega
  rw [if_neg h]
  congr 1
  simp only [OfNat.ofNat_ne_zero, if_false, if_true]
  omega

/-- When 4 bytes remain, the iteration that ends the meta-header loop leaves
the cursor where it found it. -/
theorem metaStep_rewind (b s1 : MetaState) (g e : Nat) (h : metaStep b = .stop g e s1)
    (h4 : 4 ≤ b.file.remaining) :
    s1.file = b.file ∧ (ReadGroupAndElement s1.file).1 = (g, e) := by
  have hs := metaStep_stop b s1 g e h
  have h4p : b.file.pos + 4 ≤ b.file.data.length := by
    unfold File.remaining at h4; omega
  have hf : s1.file = b.file := by
    rw [hs.2.2.2.2]
    dsimp only
    rw [ReadGroupAndElement_full b.file h4p, Seek_back_four]
  refine ⟨hf, ?_⟩
  rw [hf, hs.2.1, hs.2.2.1]

theorem metaLoop_boundary (fuel : Nat) :
    ∀ (s : MetaState) (out : List Nat) (g e : Nat) (s1 : MetaState) (out1 : List Nat),
      metaLoop fuel s out = some (.done g e s1 out1) →
      ∃ b : MetaState, metaStep b = .stop g e s1 ∧ b.file.data = s.file.data := by
  induction fuel with
  | zero => intro s out g e s1 out1 h; exact Option.noConfusion h
  | succ k ih =>
    intro s out g e s1 out1 h
    unfold metaLoop at h
    cases hm : metaStep s with
    | stop g0 e0 s0 =>
      rw [hm] at h
      simp only [Option.some.injEq, MetaEnd.done.injEq] at h
      obtain ⟨hg, he, hs, _⟩ := h
      subst hg he hs
      exact ⟨s, hm, rfl⟩
    | panic o =>
      rw [hm] at h
      simp only [Option.some.injEq] at h
      exact MetaEnd.noConfusion h
    | next s0 o =>
      rw [hm] at h
      simp only at h
      obtain ⟨b, hb, hd⟩ := ih s0 (out ++ o) g e s1 out1 h
      exact ⟨b, hb, hd.trans (metaStep_next s s0 o hm).1⟩

set_option maxRecDepth 100000 in
/-- C2 fails on a file that ends right after the marker: no byte remains for
the read that detects the boundary, which yields (0000,0000) and consumes
nothing; the rewind then moves 4 bytes back onto the marker and the first
pair read in the data-set phase is (4944,4d43), the bytes of `DICM`. -/
theorem rewind_counterexample :
    (readPreamble markerOnlyFile).1 = bytesOf "DICM" ∧
    metaLoop (markerOnlyFile.data.length + 1)
      { file := (readPreamble markerOnlyFile).2, transferSyntaxUID := [] } (bytesOf "Meta Header:\n")
      = some (.done 0 0 { file := { markerOnlyFile with pos := 128 }, transferSyntaxUID := [] }
          (bytesOf "Meta Header:\n")) ∧
    (ReadGroupAndElement { markerOnlyFile with pos := 128 }).1 = (0x4944, 0x4d43) ∧
    (ReadGroupAndElement { markerOnlyFile with pos := 128 }).1 ≠ (0, 0) := by
  decide

/-! ## Rendering -/

theorem littleEndian_singleton (l : List Nat) (h : l.length = 1) :
    littleEndian l = l.getD 0 0 := by
  match l, h with
  | [a], _ => simp [littleEndian]

/-- C10. For every tag with `len(Value) = Length`, whatever its VR, and every
depth, `PrintTag` writes the indentation, the head of the line and then
the reference value part followed by a newline: the placeholder when Length
exceeds 1024, the decimal form of the little-endian integer when Length is
1, 2, 4 or 8, the value bytes as text otherwise.  When Length exceeds 1024
the output is the same whatever Value holds. -/
theorem PrintTag_reference (tag : Tag) (depth : Nat)
    (h : tag.valueBytes.length = tag.Length) :
    PrintTag tag depth
      = ⟨List.replicate (2 * depth) 32
          ++ tagHeader tag.Group tag.Element tag.VR tag.Length
          ++ referenceValuePart tag.Length tag.valueBytes ++ bytesOf "\n", false⟩ ∧
    (tag.Length > 1024 → ∀ v, PrintTag { tag with Value := v } depth = PrintTag tag depth) := by
  have hd : ¬ ((depth : Int) * 2 < 0) := by omega
  have ht : ((depth : Int) * 2).toNat = 2 * depth := by omega
  have hnl : bytesOf "\n" = [10] := rfl
  constructor
  · unfold PrintTag referenceValuePart
    rw [if_neg hd, ht, hnl]
    dsimp only
    by_cases hbig : tag.Length > 1024
    · rw [if_pos hbig, if_pos hbig]
      have : bytesOf "<Value is too long to display>\n"
          = bytesOf "<Value is too long to display>" ++ [10] := by decide
      rw [this, ← List.append_assoc]
    · rw [if_neg hbig, if_neg hbig]
      unfold printValue
      by_cases h1 : tag.Length = 1
      · rw [if_pos h1, if_neg (by omega), if_pos (Or.inl h1),
          littleEndian_singleton _ (h.trans h1)]
      · rw [if_neg h1]
        by_cases h2 : tag.Length = 2
        · rw [if_pos h2, if_neg (by omega), if_pos (Or.inr (Or.inl h2))]
          unfold Uint16
          rw [List.take_of_length_le (by omega)]
        · rw [if_neg h2]
          by_cases h4 : tag.Length = 4
          · rw [if_pos h4, if_neg (by omega), if_pos (Or.inr (Or.inr (Or.inl h4)))]
            unfold Uint32
            rw [List.take_of_length_le (by omega)]
          · rw [if_neg h4]
            by_cases h8 : tag.Length = 8
            · rw [if_pos h8, if_neg (by omega), if_pos (Or.inr (Or.inr (Or.inr h8)))]
              unfold Uint64
              rw [List.take_of_length_le (by omega)]
            · rw [if_neg h8, if_neg (by omega)]
  · intro hbig v
    unfold PrintTag
    dsimp only
    rw [if_neg hd, if_pos hbig, if_pos hbig, if_neg hd]

/-- C10, at a 2-byte value of VR `US`, depth 1. -/
theorem PrintTag_reference_witness :
    PrintTag ⟨0x0028, 0x0010, bytesOf "US", 2, some [0x00, 0x02]⟩ (1 : Nat)
      = ⟨List.replicate (2 * 1) 32 ++ tagHeader 0x0028 0x0010 (bytesOf "US") 2
          ++ referenceValuePart 2 [0x00, 0x02] ++ bytesOf "\n", false⟩ ∧
    ((2 : Nat) > 1024 → ∀ v, PrintTag ⟨0x0028, 0x0010, bytesOf "US", 2, v⟩ (1 : Nat)
        = PrintTag ⟨0x0028, 0x0010, bytesOf "US", 2, some [0x00, 0x02]⟩ (1 : Nat)) :=
  PrintTag_reference ⟨0x0028, 0x0010, bytesOf "US", 2, some [0x00, 0x02]⟩ 1 (by decide)

/-- C9 fails: the element (0008,0020) decodes in explicit mode to VR `DA`,
length 8, value `20230101`, and the line `PrintTag` writes for it is not
the head of the line followed by the text `20230101`. -/
theorem PrintTag_date_counterexample :
    (ReadExplicitVRTag { dateElementFile with pos := 4 }).1
      = { dateTag with Group := 0, Element := 0 } ∧
    (PrintTag dateTag 0).out
      ≠ tagHeader 0x0008 0x0020 (bytesOf "DA") 8 ++ bytesOf "20230101" ++ bytesOf "\n" := by
  decide

/-- C9 (amended). The element (0008,0020) with VR `DA`, length 8 and value
`20230101`, decoded in explicit mode by the data-set loop, is rendered with
the value part 3544386989827698738, the decimal form of the 8 value bytes
read as a little-endian 64-bit integer. -/
theorem PrintTag_date :
    dataStep true { file := dateElementFile, seqDepth := 0, seqLengthRemaining := 0 }
      = .next { file := { dateElementFile with pos := 16 }, seqDepth := 0,
                seqLengthRemaining := 0 }
          (bytesOf "(0008,0020) DA(8) 3544386989827698738\n") ∧
    PrintTag dateTag 0 = ⟨bytesOf "(0008,0020) DA(8) 3544386989827698738\n", false⟩ ∧
    Uint64 (bytesOf "20230101") = 3544386989827698738 := by
  decide

/-! ## The marker check and the result of the parse -/

theorem ParseDicomFileFuel_bad (fuel : Nat) (f : File)
    (h : (f.data.drop 128).take 4 ≠ bytesOf "DICM") :
    ParseDicomFileFuel fuel f = some ⟨[], .fatal "Not a DICOM file"⟩ := by
  unfold ParseDicomFileFuel
  dsimp only
  rw [if_pos (fun hc => h ((readPreamble_magic f).1 hc))]

theorem ParseDicomFileFuel_good (fuel : Nat) (f : File)
    (h : (f.data.drop 128).take 4 = bytesOf "DICM") :
    ParseDicomFileFuel fuel f = parseBody fuel { data := f.data, pos := 132 } := by
  unfold ParseDicomFileFuel
  dsimp only
  rw [if_neg (not_not_intro ((readPreamble_magic f).2 h)), readPreamble_file f h]

/-- The parse ends for every file, and never with a non-nil `error`. -/
theorem ParseDicomFile_total (f : File) :
    ∃ run, ParseDicomFile f = some run ∧
      (run.outcome = .returned none ∨ run.outcome = .panicked
        ∨ run.outcome = .fatal "Not a DICOM file") := by
  unfold ParseDicomFile
  by_cases h : (f.data.drop 128).take 4 = bytesOf "DICM"
  · rw [ParseDicomFileFuel_good _ f h]
    obtain ⟨run, hr, _, ho⟩ := parseBody_total { data := f.data, pos := 132 }
    exact ⟨run, hr, ho.elim Or.inl (fun hp => Or.inr (Or.inl hp))⟩
  · rw [ParseDicomFileFuel_bad _ f h]
    exact ⟨_, rfl, Or.inr (Or.inr rfl)⟩

/-- C7. When the 4 bytes at offsets 128..131 are `DICM`, `ParseDicomFile`
goes on to the meta header with the cursor at offset 132.  It ends having
written the `Meta Header:` line first, and not by the fatal error, if and
only if those 4 bytes are `DICM`.  For every other file, files shorter than
132 bytes included, it ends by the fatal error `Not a DICOM file` with
nothing written and no element decoded. -/
theorem ParseDicomFile_marker (f : File) :
    ((f.data.drop 128).take 4 = bytesOf "DICM" →
      ParseDicomFile f = parseBody (f.data.length + 1) { data := f.data, pos := 132 }) ∧
    ((∃ run, ParseDicomFile f = some run ∧ bytesOf "Meta Header:\n" <+: run.stdout
        ∧ run.outcome ≠ .fatal "Not a DICOM file")
      ↔ (f.data.drop 128).take 4 = bytesOf "DICM") ∧
    ((f.data.drop 128).take 4 ≠ bytesOf "DICM" →
      ParseDicomFile f = some ⟨[], .fatal "Not a DICOM file"⟩) := by
  refine ⟨fun h => ParseDicomFileFuel_good _ f h, ⟨?_, ?_⟩, fun h => ParseDicomFileFuel_bad _ f h⟩
  · rintro ⟨run, hr, hp, _⟩
    by_contra hc
    have hb : ParseDicomFile f = some ⟨[], .fatal "Not a DICOM file"⟩ :=
      ParseDicomFileFuel_bad _ f hc
    rw [hb] at hr
    simp only [Option.some.injEq] at hr
    subst hr
    have := List.IsPrefix.length_le hp
    revert this
    decide
  · intro h
    obtain ⟨run, hr, hp, ho⟩ := parseBody_total { data := f.data, pos := 132 }
    refine ⟨run, (ParseDicomFileFuel_good _ f h).trans hr, hp, ?_⟩
    intro hf
    rw [hf] at ho
    rcases ho with ho | ho <;> exact Outcome.noConfusion ho

theorem window_of_ge (f : File) (i n : Nat) (hi : f.pos + i ≤ f.data.length)
    (h : f.data.length ≤ f.pos + i + n) :
    f.window i n
      = f.data.drop (f.pos + i) ++ List.replicate (f.pos + i + n - f.data.length) 0 := by
  unfold File.window
  rw [padTake_of_ge _ _ (by rw [List.length_drop]; omega), List.length_drop]
  congr 2
  omega

/-- C6 (amended). For every file `ParseDicomFile` ends and its `error` result
is never non-nil: a read past the end of the stream is not reported.  A
decoder whose header is present and whose declared length extends past the
end of the stream returns a tag whose Value has the declared length: the
bytes that remain, followed by zeros (implicit decoder; explicit decoder
for every VR but `SQ`). -/
theorem ParseDicomFile_no_error (f : File) :
    (∃ run, ParseDicomFile f = some run ∧ ∀ err, run.outcome ≠ .returned (some err)) ∧
    (f.pos + 4 ≤ f.data.length →
      f.data.length ≤ f.pos + 4 + (ReadImplicitVRTag f).1.Length →
      (ReadImplicitVRTag f).1.Value
        = some (f.data.drop (f.pos + 4)
            ++ List.replicate (f.pos + 4 + (ReadImplicitVRTag f).1.Length - f.data.length) 0)) ∧
    ((ReadExplicitVRTag f).1.VR ≠ bytesOf "SQ" →
      f.pos + explicitHeaderSize (f.window 0 2) ≤ f.data.length →
      f.data.length ≤ f.pos + explicitHeaderSize (f.window 0 2) + (ReadExplicitVRTag f).1.Length →
      (ReadExplicitVRTag f).1.Value
        = some (f.data.drop (f.pos + explicitHeaderSize (f.window 0 2))
            ++ List.replicate (f.pos + explicitHeaderSize (f.window 0 2)
                + (ReadExplicitVRTag f).1.Length - f.data.length) 0)) := by
  refine ⟨?_, ?_, ?_⟩
  · obtain ⟨run, hr, ho⟩ := ParseDicomFile_total f
    refine ⟨run, hr, fun err he => ?_⟩
    rw [he] at ho
    rcases ho with ho | ho | ho
    · simp at ho
    · exact Outcome.noConfusion ho
    · exact Outcome.noConfusion ho
  · intro h4 hlen
    have hv : (ReadImplicitVRTag f).1.Value = some (f.window 4 (ReadImplicitVRTag f).1.Length) := by
      unfold ReadImplicitVRTag
      dsimp only
      rw [Read_buf, Read_window]
    rw [hv, window_of_ge f _ _ h4 hlen]
  · intro hsq h4 hlen
    rw [ReadExplicitVRTag_VR] at hsq
    have hv : (ReadExplicitVRTag f).1.Value
        = some (f.window (explicitHeaderSize (f.window 0 2)) (ReadExplicitVRTag f).1.Length) := by
      unfold explicitHeaderSize
      by_cases hs : f.window 0 2 ∈ shortFormVRs
      · rw [if_pos hs]
        exact (ReadExplicitVRTag_short f hs).2
      · rw [if_neg hs]
        exact ReadExplicitVRTag_long_Value f hs hsq
    rw [hv, window_of_ge f _ _ h4 hlen]

set_option maxRecDepth 100000 in
/-- C6 fails on the minimal file cut off after 3 of the 18 value bytes:
`ParseDicomFile` returns `nil`, and the decoder returns a tag of Length 18
whose 15 missing value bytes are zero; the listing shows them. -/
theorem truncated_counterexample :
    ParseDicomFile truncatedFile
      = some ⟨bytesOf "Meta Header:\n(0002,0010) UI(18) 1.2" ++ List.replicate 15 0
          ++ bytesOf "\n\nData Set:\n(3100,322e) " ++ [0, 0] ++ bytesOf "(0) \n",
          .returned none⟩ ∧
    (ReadExplicitVRTag { truncatedFile with pos := 136 }).1
      = { Group := 0, Element := 0, VR := bytesOf "UI", Length := 18,
          Value := some (bytesOf "1.2" ++ List.replicate 15 0) } := by
  decide

/-! ## The decoders at concrete elements -/

/-- C4, at a sequence element of length 12 and at the element (0008,0020) of
VR `DA` (cursor at offset 4, after its tag). -/
theorem ReadExplicitVRTag_cursor_witness :
    (sequenceElementFile.pos + explicitHeaderSize (sequenceElementFile.window 0 2)
        + (ReadExplicitVRTag sequenceElementFile).1.Length ≤ sequenceElementFile.data.length ∧
      (ReadExplicitVRTag sequenceElementFile).1.Length
        = littleEndian ((sequenceElementFile.data.drop (sequenceElementFile.pos + 4)).take 4) ∧
      (ReadExplicitVRTag sequenceElementFile).1.Value = none ∧
      (ReadExplicitVRTag sequenceElementFile).2.pos = sequenceElementFile.pos + 8) ∧
    ((ReadExplicitVRTag { dateElementFile with pos := 4 }).1.Value
        = some (bytesOf "20230101") ∧
      (ReadExplicitVRTag { dateElementFile with pos := 4 }).2.pos = 16) := by
  have h1 := (ReadExplicitVRTag_cursor sequenceElementFile (by decide)).1 (by decide)
  have h2 := (ReadExplicitVRTag_cursor { dateElementFile with pos := 4 } (by decide)).2
    (by decide)
  exact ⟨⟨by decide, h1⟩, h2.1.trans (by decide), h2.2.1.trans (by decide)⟩

/-- C5, at an element of length 3 with value `abc`. -/
theorem ReadImplicitVRTag_spec_witness :
    implicitElementFile.pos + 4
        + littleEndian ((implicitElementFile.data.drop implicitElementFile.pos).take 4)
      ≤ implicitElementFile.data.length ∧
    (ReadImplicitVRTag implicitElementFile).1.Length = 3 ∧
    (ReadImplicitVRTag implicitElementFile).1.Value = some (bytesOf "abc") ∧
    (ReadImplicitVRTag implicitElementFile).1.VR = [] ∧
    (ReadImplicitVRTag implicitElementFile).2.pos = 7 := by
  have h := ReadImplicitVRTag_spec implicitElementFile (by decide)
  exact ⟨by decide, h.1.trans (by decide), h.2.1.trans (by decide), h.2.2.1,
    h.2.2.2.trans (by decide)⟩

/-- C8, at the element cut off after 3 of its 18 value bytes and at an
implicit element. -/
theorem decoded_value_length_witness :
    (bytesOf "1.2" ++ List.replicate 15 0).length
      = (ReadExplicitVRTag { truncatedFile with pos := 136 }).1.Length ∧
    (bytesOf "abc").length = (ReadImplicitVRTag implicitElementFile).1.Length :=
  ⟨(decoded_value_length { truncatedFile with pos := 136 }
      (bytesOf "1.2" ++ List.replicate 15 0)).1 (by decide),
   (decoded_value_length implicitElementFile (bytesOf "abc")).2 (by decide)⟩

/-! ## The claims at concrete files -/

/-- C3, at the element (0008,0020) of VR `DA` (short form: length 8 from
offsets 2..3, value from offset 4) and at a sequence element (long form:
length 12 from offsets 4..7, no value). -/
theorem ReadExplicitVRTag_layout_witness :
    ((ReadExplicitVRTag { dateElementFile with pos := 4 }).1.VR = bytesOf "DA" ∧
      (ReadExplicitVRTag { dateElementFile with pos := 4 }).1.Length = 8 ∧
      (ReadExplicitVRTag { dateElementFile with pos := 4 }).1.Value
        = some (bytesOf "20230101")) ∧
    ((ReadExplicitVRTag sequenceElementFile).1.VR = bytesOf "SQ" ∧
      (ReadExplicitVRTag sequenceElementFile).1.Length = 12 ∧
      (ReadExplicitVRTag sequenceElementFile).1.Value = none) := by
  have h1 := ReadExplicitVRTag_layout { dateElementFile with pos := 4 }
  have h2 := ReadExplicitVRTag_layout sequenceElementFile
  have s1 := h1.2.1 (by decide)
  have s2 := h2.2.2 (by decide)
  exact ⟨⟨h1.1.trans (by decide), s1.1.trans (by decide), s1.2.trans (by decide)⟩,
    ⟨h2.1.trans (by decide), s2.1.trans (by decide), s2.2.2 (by decide)⟩⟩

set_option maxRecDepth 100000 in
/-- C7, at a file that ends right after the marker (the parse goes on from
offset 132) and at the empty file (fatal error, nothing written). -/
theorem ParseDicomFile_marker_witness :
    ParseDicomFile markerOnlyFile
      = parseBody (markerOnlyFile.data.length + 1) { data := markerOnlyFile.data, pos := 132 } ∧
    ParseDicomFile emptyFile = some ⟨[], .fatal "Not a DICOM file"⟩ :=
  ⟨(ParseDicomFile_marker markerOnlyFile).1 (by decide),
   (ParseDicomFile_marker emptyFile).2.2 (by decide)⟩

set_option maxRecDepth 100000 in
/-- C6 (amended), at the element cut off after 3 of its 18 value bytes: the
3 bytes that remain, then 15 zeros. -/
theorem ParseDicomFile_no_error_witness :
    (ReadExplicitVRTag { truncatedFile with pos := 136 }).1.Value
      = some (bytesOf "1.2" ++ List.replicate 15 0) :=
  ((ParseDicomFile_no_error { truncatedFile with pos := 136 }).2.2 (by decide) (by decide)
    (by decide)).trans (by decide)

/-! ## One iteration of the data-set loop, by kind of element -/

theorem dataStep_item (x : Bool) (s : DataState)
    (h0 : ¬ ((ReadGroupAndElement s.file).1.1 = 0 ∧ (ReadGroupAndElement s.file).1.2 = 0))
    (hi : (ReadGroupAndElement s.file).1.1 = 0xfffe ∧ (ReadGroupAndElement s.file).1.2 = 0xe000) :
    dataEvent x s = .item (Uint32 ((ReadGroupAndElement s.file).2.Read 4).1) ∧
    dataStep x s = .next
      { file := ((ReadGroupAndElement s.file).2.Read 4).2,
        seqDepth :=
          if (s.seqLengthRemaining + 2 ^ 32
              - Uint32 ((ReadGroupAndElement s.file).2.Read 4).1 % 2 ^ 32) % 2 ^ 32 = 0
          then s.seqDepth + 1 - 1 else s.seqDepth + 1,
        seqLengthRemaining := (s.seqLengthRemaining + 2 ^ 32
              - Uint32 ((ReadGroupAndElement s.file).2.Read 4).1 % 2 ^ 32) % 2 ^ 32 }
      (itemLine (ReadGroupAndElement s.file).1.1 (ReadGroupAndElement s.file).1.2
        (Uint32 ((ReadGroupAndElement s.file).2.Read 4).1)) := by
  constructor
  · unfold dataEvent
    dsimp only
    rw [if_pos hi]
  · unfold dataStep
    dsimp only
    rw [if_neg h0, if_pos hi]

/-- The tag the iteration that starts in `s` decodes (lines 98 to 105). -/
theorem dataStep_sequence (x : Bool) (s : DataState) (t : Tag × File)
    (ht : t = if x = true then ReadExplicitVRTag (ReadGroupAndElement s.file).2
      else ReadImplicitVRTag (ReadGroupAndElement s.file).2)
    (h0 : ¬ ((ReadGroupAndElement s.file).1.1 = 0 ∧ (ReadGroupAndElement s.file).1.2 = 0))
    (hi : ¬ ((ReadGroupAndElement s.file).1.1 = 0xfffe
      ∧ (ReadGroupAndElement s.file).1.2 = 0xe000))
    (hsq : t.1.VR = bytesOf "SQ") :
    dataEvent x s = .sequence t.1.Length ∧
    dataStep x s = .next
      { file := t.2, seqDepth := s.seqDepth + 1, seqLengthRemaining := t.1.Length }
      (sequenceLine (ReadGroupAndElement s.file).1.1 (ReadGroupAndElement s.file).1.2
        t.1.VR t.1.Length) := by
  subst ht
  constructor
  · unfold dataEvent
    dsimp only
    rw [if_neg hi, if_pos hsq]
  · unfold dataStep
    dsimp only
    rw [if_neg h0, if_neg hi, if_pos hsq]

theorem dataStep_leaf (x : Bool) (s : DataState) (t : Tag × File)
    (ht : t = if x = true then ReadExplicitVRTag (ReadGroupAndElement s.file).2
      else ReadImplicitVRTag (ReadGroupAndElement s.file).2)
    (h0 : ¬ ((ReadGroupAndElement s.file).1.1 = 0 ∧ (ReadGroupAndElement s.file).1.2 = 0))
    (hi : ¬ ((ReadGroupAndElement s.file).1.1 = 0xfffe
      ∧ (ReadGroupAndElement s.file).1.2 = 0xe000))
    (hsq : t.1.VR ≠ bytesOf "SQ") :
    dataEvent x s = .leaf ∧
    dataStep x s =
      if (PrintTag ⟨(ReadGroupAndElement s.file).1.1, (ReadGroupAndElement s.file).1.2,
            t.1.VR, t.1.Length, t.1.Value⟩ s.seqDepth).panicked
      then .panic (PrintTag ⟨(ReadGroupAndElement s.file).1.1, (ReadGroupAndElement s.file).1.2,
            t.1.VR, t.1.Length, t.1.Value⟩ s.seqDepth).out
      else .next { s with file := t.2 }
        (PrintTag ⟨(ReadGroupAndElement s.file).1.1, (ReadGroupAndElement s.file).1.2,
            t.1.VR, t.1.Length, t.1.Value⟩ s.seqDepth).out := by
  subst ht
  constructor
  · unfold dataEvent
    dsimp only
    rw [if_neg hi, if_neg hsq]
  · unfold dataStep
    dsimp only
    rw [if_neg h0, if_neg hi, if_neg hsq]

theorem dataStep_stop (x : Bool) (s : DataState)
    (h0 : (ReadGroupAndElement s.file).1.1 = 0 ∧ (ReadGroupAndElement s.file).1.2 = 0) :
    dataStep x s = .stop := by
  unfold dataStep
  dsimp only
  rw [if_pos h0]

theorem dataStep_next_ne (x : Bool) (s s1 : DataState) (o : List Nat)
    (h : dataStep x s = .next s1 o) :
    ¬ ((ReadGroupAndElement s.file).1.1 = 0 ∧ (ReadGroupAndElement s.file).1.2 = 0) := by
  intro h0
  rw [dataStep_stop x s h0] at h
  exact DataStep.noConfusion h

/-! ## The nesting depth -/

/-- The tag a data-set iteration decodes carries a Value of its Length,
unless it is a sequence element. -/
theorem dataTag_value_length (x : Bool) (f : File) (t : Tag × File)
    (ht : t = if x = true then ReadExplicitVRTag f else ReadImplicitVRTag f)
    (hsq : t.1.VR ≠ bytesOf "SQ") :
    ∃ v, t.1.Value = some v ∧ v.length = t.1.Length := by
  subst ht
  cases x with
  | true =>
    rw [if_pos rfl] at hsq ⊢
    rw [ReadExplicitVRTag_VR] at hsq
    rw [ReadExplicitVRTag_leaf f hsq]
    exact ⟨_, rfl, by rw [Read_buf, window_length]⟩
  | false =>
    rw [if_neg (by decide)]
    unfold ReadImplicitVRTag
    exact ⟨_, rfl, by rw [Read_buf, window_length]⟩

/-- The three ways in which an iteration of the data-set loop continues. -/
theorem dataStep_next_cases (x : Bool) (s s1 : DataState) (o : List Nat)
    (h : dataStep x s = .next s1 o) :
    (∃ l, dataEvent x s = .item l ∧
      s1.seqLengthRemaining = (s.seqLengthRemaining + 2 ^ 32 - l % 2 ^ 32) % 2 ^ 32 ∧
      s1.seqDepth = (if s1.seqLengthRemaining = 0 then s.seqDepth + 1 - 1 else s.seqDepth + 1) ∧
      o = itemLine 0xfffe 0xe000 l) ∨
    (∃ g e l, dataEvent x s = .sequence l ∧ s1.seqLengthRemaining = l ∧
      s1.seqDepth = s.seqDepth + 1 ∧ o = sequenceLine g e (bytesOf "SQ") l) ∨
    (∃ tag : Tag, dataEvent x s = .leaf ∧ s1.seqLengthRemaining = s.seqLengthRemaining ∧
      s1.seqDepth = s.seqDepth ∧ tag.valueBytes.length = tag.Length ∧
      PrintTag tag s.seqDepth = ⟨o, false⟩) := by
  have h0 := dataStep_next_ne x s s1 o h
  by_cases hi : (ReadGroupAndElement s.file).1.1 = 0xfffe
      ∧ (ReadGroupAndElement s.file).1.2 = 0xe000
  · obtain ⟨he, hs⟩ := dataStep_item x s h0 hi
    rw [hs] at h
    injection h with h1 h2
    subst h1 h2
    refine Or.inl ⟨Uint32 ((ReadGroupAndElement s.file).2.Read 4).1, he, ?_, ?_, ?_⟩
    · dsimp only
    · dsimp only
    · rw [hi.1, hi.2]
  · obtain ⟨t, ht⟩ : ∃ t : Tag × File,
        t = if x = true then ReadExplicitVRTag (ReadGroupAndElement s.file).2
          else ReadImplicitVRTag (ReadGroupAndElement s.file).2 := ⟨_, rfl⟩
    by_cases hsq : t.1.VR = bytesOf "SQ"
    · obtain ⟨he, hs⟩ := dataStep_sequence x s t ht h0 hi hsq
      rw [hs] at h
      injection h with h1 h2
      subst h1 h2
      refine Or.inr (Or.inl ⟨(ReadGroupAndElement s.file).1.1, (ReadGroupAndElement s.file).1.2,
        t.1.Length, he, ?_, ?_, ?_⟩)
      · dsimp only
      · dsimp only
      · rw [hsq]
    · obtain ⟨he, hs⟩ := dataStep_leaf x s t ht h0 hi hsq
      obtain ⟨v, hv, hl⟩ := dataTag_value_length x _ t ht hsq
      rw [hs] at h
      by_cases hp : (PrintTag ⟨(ReadGroupAndElement s.file).1.1,
          (ReadGroupAndElement s.file).1.2, t.1.VR, t.1.Length, t.1.Value⟩ s.seqDepth).panicked
          = true
      · rw [if_pos hp] at h
        exact DataStep.noConfusion h
      · rw [if_neg hp] at h
        injection h with h1 h2
        subst h1
        refine Or.inr (Or.inr ⟨⟨(ReadGroupAndElement s.file).1.1,
          (ReadGroupAndElement s.file).1.2, t.1.VR, t.1.Length, t.1.Value⟩, he, rfl, rfl, ?_, ?_⟩)
        · show (t.1.Value.getD []).length = t.1.Length
          rw [hv]
          exact hl
        · rw [← h2]
          simp only [Bool.not_eq_true] at hp
          rw [← hp]

theorem dataStep_depth (x : Bool) (s s1 : DataState) (o : List Nat)
    (h : dataStep x s = .next s1 o) :
    s.seqDepth ≤ s1.seqDepth ∧
    (∀ l, dataEvent x s = .sequence l → s1.seqDepth = s.seqDepth + 1) ∧
    (∀ l, dataEvent x s = .item l →
      s1.seqDepth = if s1.seqLengthRemaining = 0 then s.seqDepth else s.seqDepth + 1) ∧
    (dataEvent x s = .leaf → s1.seqDepth = s.seqDepth) := by
  rcases dataStep_next_cases x s s1 o h with ⟨l, he, _, hd, _⟩ | ⟨g, e, l, he, _, hd, _⟩
    | ⟨tag, he, _, hd, _⟩
  · rw [he, hd]
    refine ⟨?_, fun l hl => DataEvent.noConfusion hl, fun _ _ => ?_,
      fun hl => DataEvent.noConfusion hl⟩
    · split <;> omega
    · split <;> omega
  · rw [he, hd]
    exact ⟨by omega, fun _ _ => rfl, fun l hl => DataEvent.noConfusion hl,
      fun hl => DataEvent.noConfusion hl⟩
  · rw [he, hd]
    exact ⟨le_refl _, fun l hl => DataEvent.noConfusion hl,
      fun l hl => DataEvent.noConfusion hl, fun _ => rfl⟩

theorem trackStep_some (x : Bool) (t t1 : Tracked) (h : trackStep x t = some t1) :
    ∃ o, dataStep x t.state = .next t1.state o ∧ t1.out = t.out ++ o ∧
      t1.frame = t.frame.record (dataEvent x t.state) := by
  unfold trackStep at h
  split at h
  · rename_i s1 o hs
    simp only [Option.some.injEq] at h
    subst h
    exact ⟨o, hs, rfl, rfl⟩
  · exact Option.noConfusion h

theorem dataRun_succ (x : Bool) (n : Nat) (t t' : Tracked)
    (h : dataRun x (n + 1) t = some t') :
    ∃ t1, dataRun x n t = some t1 ∧ trackStep x t1 = some t' := by
  unfold dataRun at h
  cases hr : dataRun x n t with
  | none => rw [hr] at h; exact Option.noConfusion h
  | some t1 => rw [hr] at h; exact ⟨t1, rfl, h⟩

theorem dataRun_depth (x : Bool) (n : Nat) :
    ∀ t t', dataRun x n t = some t' → t.state.seqDepth ≤ t'.state.seqDepth := by
  induction n with
  | zero =>
    intro t t' h
    simp only [dataRun, Option.some.injEq] at h
    subst h
    exact le_refl _
  | succ k ih =>
    intro t t' h
    obtain ⟨t1, h1, h2⟩ := dataRun_succ x k t t' h
    obtain ⟨o, hs, _, _⟩ := trackStep_some x t1 t' h2
    exact le_trans (ih t t1 h1) (dataStep_depth x _ _ o hs).1

/-- C20. In the data-set loop as `ParseDicomFile` enters it, `seqDepth` is
never negative; and from one iteration to the next it never decreases: a
sequence element raises it by one, an item marker raises it by one unless
the counter reaches zero (it is then left unchanged), a leaf element leaves
it unchanged. -/
theorem seqDepth_never_decreases (x : Bool) :
    (∀ n file out t, dataRun x n (dataStart file out) = some t → 0 ≤ t.state.seqDepth) ∧
    (∀ s s1 o, dataStep x s = .next s1 o →
      s.seqDepth ≤ s1.seqDepth ∧
      (∀ l, dataEvent x s = .sequence l → s1.seqDepth = s.seqDepth + 1) ∧
      (∀ l, dataEvent x s = .item l →
        s1.seqDepth = if s1.seqLengthRemaining = 0 then s.seqDepth else s.seqDepth + 1) ∧
      (dataEvent x s = .leaf → s1.seqDepth = s.seqDepth)) :=
  ⟨fun n file out t h => dataRun_depth x n (dataStart file out) t h, dataStep_depth x⟩

/-- C20, at the scenario's data set: after the sequence element and the item
marker the depth is 1. -/
theorem seqDepth_never_decreases_witness :
    (0 : Int) ≤ 1 ∧
    ∃ t, dataRun true 2 (dataStart sequenceScenarioFile []) = some t ∧ t.state.seqDepth = 1 := by
  have h : dataRun true 2 (dataStart sequenceScenarioFile [])
      = some { state := { file := { sequenceScenarioFile with pos := 20 }, seqDepth := 1,
                          seqLengthRemaining := 0 },
               out := bytesOf "(0008,1140) SQ(12) <Sequence of Items>\n"
                 ++ bytesOf "  (fffe,e000) NA(12) <Sequence Item>\n",
               frame := { declared := 12, items := [12] } } := by decide
  exact ⟨(seqDepth_never_decreases true).1 2 sequenceScenarioFile [] _ h, _, h, rfl⟩

/-- C11 (the code at the scenario's data set). After the sequence element
(explicit mode, declared length 12, depth 0 before it) the depth is 1 and the
counter 12; after the item marker of item length 12 the counter is 0 and
the depth is still 1, not 0: the decrement of line 91 undoes the increment of
line 82 and the frame the sequence element opened stays open. -/
theorem sequence_scenario_depth :
    dataRun true 1 (dataStart sequenceScenarioFile [])
      = some { state := { file := { sequenceScenarioFile with pos := 12 }, seqDepth := 1,
                          seqLengthRemaining := 12 },
               out := bytesOf "(0008,1140) SQ(12) <Sequence of Items>\n",
               frame := { declared := 12, items := [] } } ∧
    dataRun true 2 (dataStart sequenceScenarioFile [])
      = some { state := { file := { sequenceScenarioFile with pos := 20 }, seqDepth := 1,
                          seqLengthRemaining := 0 },
               out := bytesOf "(0008,1140) SQ(12) <Sequence of Items>\n"
                 ++ bytesOf "  (fffe,e000) NA(12) <Sequence Item>\n",
               frame := { declared := 12, items := [12] } } := by
  decide

/-! ## The counter of remaining bytes -/

theorem two_pow_32 : (2 : Nat) ^ 32 = 4294967296 := by norm_num

theorem sum_take_snoc_le (items : List Nat) (l d : Nat)
    (h : ∀ k, ((items ++ [l]).take k).sum ≤ d) :
    (∀ k, (items.take k).sum ≤ d) ∧ items.sum + l ≤ d := by
  constructor
  · intro k
    by_cases hk : k ≤ items.length
    · have := h k
      rwa [List.take_append_of_le_length hk] at this
    · have := h items.length
      rw [List.take_append_of_le_length (le_refl _), List.take_length] at this
      rwa [List.take_of_length_le (by omega)]
  · have := h (items.length + 1)
    rw [List.take_of_length_le (by simp)] at this
    simpa using this

/-- The counter follows the record of the nesting, modulo `2^32`; and
exactly, as long as the item lengths do not exceed the declared length. -/
theorem trackStep_counter (x : Bool) (t t1 : Tracked) (h : trackStep x t = some t1)
    (hm : (t.state.seqLengthRemaining + t.frame.items.sum) % 2 ^ 32
      = t.frame.declared % 2 ^ 32)
    (he : t.frame.declared < 2 ^ 32 → (∀ k, (t.frame.items.take k).sum ≤ t.frame.declared) →
      t.state.seqLengthRemaining + t.frame.items.sum = t.frame.declared) :
    (t1.state.seqLengthRemaining + t1.frame.items.sum) % 2 ^ 32
      = t1.frame.declared % 2 ^ 32 ∧
    (t1.frame.declared < 2 ^ 32 →
      (∀ k, (t1.frame.items.take k).sum ≤ t1.frame.declared) →
      t1.state.seqLengthRemaining + t1.frame.items.sum = t1.frame.declared) := by
  obtain ⟨o, hs, _, hf⟩ := trackStep_some x t t1 h
  rw [two_pow_32] at hm he ⊢
  rcases dataStep_next_cases x _ _ o hs with ⟨l, hev, hc, _, _⟩ | ⟨g, e, l, hev, hc, _, _⟩
    | ⟨tag, hev, hc, _, _⟩
  · rw [hev] at hf
    rw [hf, hc, two_pow_32]
    dsimp only [Frame.record]
    rw [List.sum_append, List.sum_singleton]
    constructor
    · omega
    · intro hd hk
      obtain ⟨hk1, hk2⟩ := sum_take_snoc_le _ _ _ hk
      have := he hd hk1
      omega
  · rw [hev] at hf
    rw [hf, hc]
    dsimp only [Frame.record]
    simp only [List.sum_nil, Nat.add_zero, implies_true, and_self]
  · rw [hev] at hf
    rw [hf, hc]
    exact ⟨hm, he⟩

theorem dataRun_counter (x : Bool) (n : Nat) :
    ∀ (t t' : Tracked), dataRun x n t = some t' →
      (t.state.seqLengthRemaining + t.frame.items.sum) % 2 ^ 32 = t.frame.declared % 2 ^ 32 →
      (t.frame.declared < 2 ^ 32 → (∀ k, (t.frame.items.take k).sum ≤ t.frame.declared) →
        t.state.seqLengthRemaining + t.frame.items.sum = t.frame.declared) →
      (t'.state.seqLengthRemaining + t'.frame.items.sum) % 2 ^ 32
        = t'.frame.declared % 2 ^ 32 ∧
      (t'.frame.declared < 2 ^ 32 →
        (∀ k, (t'.frame.items.take k).sum ≤ t'.frame.declared) →
        t'.state.seqLengthRemaining + t'.frame.items.sum = t'.frame.declared) := by
  induction n with
  | zero =>
    intro t t' h hm he
    simp only [dataRun, Option.some.injEq] at h
    subst h
    exact ⟨hm, he⟩
  | succ k ih =>
    intro t t' h hm he
    obtain ⟨t1, h1, h2⟩ := dataRun_succ x k t t' h
    obtain ⟨hm1, he1⟩ := ih t t1 h1 hm he
    exact trackStep_counter x t1 t' h2 hm1 he1

/-- C12 (amended). At every point of the data-set loop as `ParseDicomFile`
enters it, the counter plus the item lengths subtracted since the sequence
element that last set it (since the start of the data set when there is
none, the counter then counting from 0) equals that element's declared
length modulo `2^32`; so whenever the counter is 0, as when an item marker
closes the frame, those item lengths sum to the declared length modulo
`2^32`.  When the declared length is below `2^32` and no partial sum of the
item lengths exceeds it, the counter is exactly the declared length minus
their sum, it never passed below zero, and at closure the sum is exactly
the declared length. -/
theorem counter_tracks_items (x : Bool) (n : Nat) (file : File) (out : List Nat)
    (t : Tracked) (h : dataRun x n (dataStart file out) = some t) :
    (t.state.seqLengthRemaining + t.frame.items.sum) % 2 ^ 32 = t.frame.declared % 2 ^ 32 ∧
    (t.state.seqLengthRemaining = 0 → t.frame.items.sum % 2 ^ 32 = t.frame.declared % 2 ^ 32) ∧
    (t.frame.declared < 2 ^ 32 → (∀ k, (t.frame.items.take k).sum ≤ t.frame.declared) →
      t.state.seqLengthRemaining + t.frame.items.sum = t.frame.declared ∧
      (t.state.seqLengthRemaining = 0 → t.frame.items.sum = t.frame.declared)) := by
  obtain ⟨hm, he⟩ := dataRun_counter x n (dataStart file out) t h rfl (fun _ _ => rfl)
  refine ⟨hm, fun h0 => ?_, fun hd hk => ⟨he hd hk, fun h0 => ?_⟩⟩
  · rw [h0, Nat.zero_add] at hm
    exact hm
  · have := he hd hk
    omega

/-- C12 (amended), at the scenario's data set after the sequence element of
declared length 12 and the item marker of item length 12. -/
theorem counter_tracks_items_witness :
    ((0 : Nat) + [12].sum) % 2 ^ 32 = 12 % 2 ^ 32 ∧
    ((0 : Nat) = 0 → [12].sum % 2 ^ 32 = 12 % 2 ^ 32) ∧
    ((12 : Nat) < 2 ^ 32 → (∀ k, (([12] : List Nat).take k).sum ≤ 12) →
      (0 : Nat) + [12].sum = 12 ∧ ((0 : Nat) = 0 → [12].sum = 12)) :=
  counter_tracks_items true 2 sequenceScenarioFile []
    { state := { file := { sequenceScenarioFile with pos := 20 }, seqDepth := 1,
                 seqLengthRemaining := 0 },
      out := bytesOf "(0008,1140) SQ(12) <Sequence of Items>\n"
        ++ bytesOf "  (fffe,e000) NA(12) <Sequence Item>\n",
      frame := { declared := 12, items := [12] } } (by decide)

/-- C12 fails on a sequence element of declared length 12 followed by item
markers of item lengths 13 and 4294967295: the counter wraps to 4294967295
at the first item and reaches 0 at the second, where the frame is closed,
with item lengths that sum to 4294967308, not to 12. -/
theorem counter_wraps_counterexample :
    (dataRun true 2 (dataStart wrappingItemsFile [])).map
        (fun t => (t.state.seqLengthRemaining, t.state.seqDepth, t.frame))
      = some (4294967295, 2, { declared := 12, items := [13] }) ∧
    (dataRun true 3 (dataStart wrappingItemsFile [])).map
        (fun t => (t.state.seqLengthRemaining, t.state.seqDepth, t.frame))
      = some (0, 2, { declared := 12, items := [13, 4294967295] }) ∧
    ([13, 4294967295] : List Nat).sum ≠ 12 := by
  decide

/-! ## The lines of the listing -/

/-- The output of `PrintTag` for a tag that carries a Value of its Length. -/
theorem PrintTag_out (tag : Tag) (depth : Nat) (h : tag.valueBytes.length = tag.Length) :
    PrintTag tag depth
      = ⟨List.replicate (2 * depth) 32
          ++ tagHeader tag.Group tag.Element tag.VR tag.Length
          ++ referenceValuePart tag.Length tag.valueBytes ++ [10], false⟩ := by
  have hd : ¬ ((depth : Int) * 2 < 0) := by omega
  have ht : ((depth : Int) * 2).toNat = 2 * depth := by omega
  unfold PrintTag referenceValuePart
  rw [if_neg hd, ht]
  dsimp only
  by_cases hbig : tag.Length > 1024
  · rw [if_pos hbig, if_pos hbig]
    have : bytesOf "<Value is too long to display>\n"
        = bytesOf "<Value is too long to display>" ++ [10] := by decide
    rw [this, ← List.append_assoc]
  · rw [if_neg hbig, if_neg hbig]
    unfold printValue
    by_cases h1 : tag.Length = 1
    · rw [if_pos h1, if_neg (by omega), if_pos (Or.inl h1),
        littleEndian_singleton _ (h.trans h1)]
    · rw [if_neg h1]
      by_cases h2 : tag.Length = 2
      · rw [if_pos h2, if_neg (by omega), if_pos (Or.inr (Or.inl h2))]
        unfold Uint16
        rw [List.take_of_length_le (by omega)]
      · rw [if_neg h2]
        by_cases h4 : tag.Length = 4
        · rw [if_pos h4, if_neg (by omega), if_pos (Or.inr (Or.inr (Or.inl h4)))]
          unfold Uint32
          rw [List.take_of_length_le (by omega)]
        · rw [if_neg h4]
          by_cases h8 : tag.Length = 8
          · rw [if_pos h8, if_neg (by omega), if_pos (Or.inr (Or.inr (Or.inr h8)))]
            unfold Uint64
            rw [List.take_of_length_le (by omega)]
          · rw [if_neg h8, if_neg (by omega)]

theorem tagHeader_paren (g e : Nat) (vr : List Nat) (l : Nat) :
    tagHeader g e vr l = bytesOf "(" ++ (fmtHex4 g ++ bytesOf "," ++ fmtHex4 e ++ bytesOf ") "
      ++ vr ++ bytesOf "(" ++ fmtDecimal l ++ bytesOf ") ") := by
  unfold tagHeader
  simp only [List.append_assoc]

theorem itemLine_spaces (g e l : Nat) :
    itemLine g e l = bytesOf "  (" ++ (fmtHex4 g ++ bytesOf "," ++ fmtHex4 e ++ bytesOf ") "
      ++ bytesOf "NA" ++ bytesOf "(" ++ fmtDecimal l ++ bytesOf ") <Sequence Item>\n") := by
  unfold itemLine
  simp only [List.append_assoc]

theorem sequenceLine_paren (g e : Nat) (vr : List Nat) (l : Nat) :
    sequenceLine g e vr l = bytesOf "(" ++ (fmtHex4 g ++ bytesOf "," ++ fmtHex4 e
      ++ bytesOf ") " ++ vr ++ bytesOf "(" ++ fmtDecimal l
      ++ bytesOf ") <Sequence of Items>\n") := by
  unfold sequenceLine
  simp only [List.append_assoc]

/-- The indentation the code gives the lines of the data-set loop.  In an
iteration that starts at a depth that is not negative, a leaf element line
starts with exactly `2*d` spaces, `d` the depth at which the line is
written, followed by its `(`; a `<Sequence Item>` line starts with two
spaces and a `<Sequence of Items>` line with none, since their format
strings take no depth. -/
theorem line_indentation (x : Bool) (s s1 : DataState) (o : List Nat)
    (h : dataStep x s = .next s1 o) (hd : 0 ≤ s.seqDepth) :
    (dataEvent x s = .leaf →
      ∃ rest, o = List.replicate (2 * s1.seqDepth.toNat) 32 ++ bytesOf "(" ++ rest) ∧
    (∀ l, dataEvent x s = .item l → ∃ rest, o = bytesOf "  (" ++ rest) ∧
    (∀ l, dataEvent x s = .sequence l → ∃ rest, o = bytesOf "(" ++ rest) := by
  rcases dataStep_next_cases x s s1 o h with ⟨l, he, _, _, ho⟩ | ⟨g, e, l, he, _, _, ho⟩
    | ⟨tag, he, _, hdep, hv, hp⟩
  · rw [he, ho, itemLine_spaces]
    exact ⟨fun hl => DataEvent.noConfusion hl, fun _ _ => ⟨_, rfl⟩,
      fun _ hl => DataEvent.noConfusion hl⟩
  · rw [he, ho, sequenceLine_paren]
    exact ⟨fun hl => DataEvent.noConfusion hl, fun _ hl => DataEvent.noConfusion hl,
      fun _ _ => ⟨_, rfl⟩⟩
  · rw [he]
    refine ⟨fun _ => ?_, fun _ hl => DataEvent.noConfusion hl,
      fun _ hl => DataEvent.noConfusion hl⟩
    have hcast : s.seqDepth = ((s.seqDepth.toNat : Nat) : Int) := (Int.toNat_of_nonneg hd).symm
    rw [hcast, PrintTag_out tag s.seqDepth.toNat hv] at hp
    injection hp with hp1 _
    rw [hdep, ← hp1, tagHeader_paren]
    refine ⟨fmtHex4 tag.Group ++ bytesOf "," ++ fmtHex4 tag.Element ++ bytesOf ") "
      ++ tag.VR ++ bytesOf "(" ++ fmtDecimal tag.Length ++ bytesOf ") "
      ++ referenceValuePart tag.Length tag.valueBytes ++ [10], ?_⟩
    simp only [List.append_assoc]

/-- The element (0008,0020) met at depth 3: its line starts with 6 spaces. -/
theorem line_indentation_witness :
    (dataEvent true { file := dateElementFile, seqDepth := 3, seqLengthRemaining := 0 } = .leaf →
      ∃ rest, bytesOf "      (0008,0020) DA(8) 3544386989827698738\n"
        = List.replicate (2 * (3 : Int).toNat) 32 ++ bytesOf "(" ++ rest) ∧
    (∀ l, dataEvent true { file := dateElementFile, seqDepth := 3, seqLengthRemaining := 0 }
        = .item l →
      ∃ rest, bytesOf "      (0008,0020) DA(8) 3544386989827698738\n" = bytesOf "  (" ++ rest) ∧
    (∀ l, dataEvent true { file := dateElementFile, seqDepth := 3, seqLengthRemaining := 0 }
        = .sequence l →
      ∃ rest, bytesOf "      (0008,0020) DA(8) 3544386989827698738\n" = bytesOf "(" ++ rest) :=
  line_indentation true { file := dateElementFile, seqDepth := 3, seqLengthRemaining := 0 }
    { file := { dateElementFile with pos := 16 }, seqDepth := 3, seqLengthRemaining := 0 }
    (bytesOf "      (0008,0020) DA(8) 3544386989827698738\n") (by decide) (by decide)

/-- The marker lines do not follow the depth: the sequence element of the
scenario is written at depth 1 with no indentation, and an item marker
written at depth 2 has two spaces, not four. -/
theorem marker_indentation_counterexample :
    dataStep true { file := sequenceScenarioFile, seqDepth := 0, seqLengthRemaining := 0 }
      = .next { file := { sequenceScenarioFile with pos := 12 }, seqDepth := 1,
                seqLengthRemaining := 12 }
          (bytesOf "(0008,1140) SQ(12) <Sequence of Items>\n") ∧
    (bytesOf "(0008,1140) SQ(12) <Sequence of Items>\n").take (2 * 1) ≠ List.replicate (2 * 1) 32 ∧
    dataStep true { file := { wrappingItemsFile with pos := 12 }, seqDepth := 1,
                    seqLengthRemaining := 12 }
      = .next { file := { wrappingItemsFile with pos := 20 }, seqDepth := 2,
                seqLengthRemaining := 4294967295 }
          (bytesOf "  (fffe,e000) NA(13) <Sequence Item>\n") ∧
    (bytesOf "  (fffe,e000) NA(13) <Sequence Item>\n").take (2 * 2) ≠ List.replicate (2 * 2) 32 := by
  decide

/-! ## Digits -/

/-- `Nat.toDigitsCore` with enough fuel puts the digits of `n` in front of
`ds`: they are digit characters below the base, and they denote `n`. -/
theorem toDigitsCore_spec (b : Nat) (hb : 2 ≤ b) :
    ∀ (fuel n : Nat) (ds : List Char), n < fuel →
      ∃ D : List Char, Nat.toDigitsCore b fuel n ds = D ++ ds ∧ D ≠ [] ∧
        (∀ c ∈ D, ∃ k, k < b ∧ c = Nat.digitChar k) ∧
        ∀ (v : Char → Nat), (∀ k, k < b → v (Nat.digitChar k) = k) → ∀ a : Nat,
          D.foldl (fun acc c => acc * b + v c) a = a * b ^ D.length + n := by
  intro fuel
  induction fuel with
  | zero => intro n ds h; omega
  | succ f ih =>
    intro n ds h
    have hmod : n % b < b := Nat.mod_lt _ (by omega)
    unfold Nat.toDigitsCore
    dsimp only
    by_cases h0 : n / b = 0
    · rw [if_pos h0]
      refine ⟨[Nat.digitChar (n % b)], rfl, by simp, ?_, ?_⟩
      · intro c hc
        rw [List.mem_singleton] at hc
        exact ⟨n % b, hmod, hc⟩
      · intro v hv a
        have hn : n % b = n := by
          have := Nat.div_add_mod n b
          rw [h0] at this
          omega
        simp only [List.foldl_cons, List.foldl_nil, List.length_singleton, pow_one]
        rw [hv _ hmod, hn]
    · rw [if_neg h0]
      have hlt : n / b < f := by
        have hpos : 0 < n := by
          rcases Nat.eq_zero_or_pos n with hz | hp
          · rw [hz, Nat.zero_div] at h0
            exact absurd rfl h0
          · exact hp
        have : n / b < n := Nat.div_lt_self hpos (by omega)
        omega
      obtain ⟨D, hD, _, hc, hval⟩ := ih (n / b) (Nat.digitChar (n % b) :: ds) hlt
      refine ⟨D ++ [Nat.digitChar (n % b)], ?_, by simp, ?_, ?_⟩
      · rw [hD, List.append_assoc]
        rfl
      · intro c hcm
        rw [List.mem_append, List.mem_singleton] at hcm
        rcases hcm with hcm | hcm
        · exact hc c hcm
        · exact ⟨n % b, hmod, hcm⟩
      · intro v hv a
        rw [List.foldl_append, hval v hv a]
        simp only [List.foldl_cons, List.foldl_nil, List.length_append, List.length_singleton]
        rw [hv _ hmod, pow_succ]
        have := Nat.div_add_mod n b
        calc (a * b ^ D.length + n / b) * b + n % b
            = a * (b ^ D.length * b) + (b * (n / b) + n % b) := by ring
          _ = a * (b ^ D.length * b) + n := by rw [this]

theorem digitChar_decimal : ∀ k, k < 10 → (Nat.digitChar k).toNat ∈ bytesOf "0123456789" := by
  decide

theorem digitChar_hex : ∀ k, k < 16 → (Nat.digitChar k).toNat ∈ bytesOf "0123456789abcdef" := by
  decide

theorem digitChar_hexValue : ∀ k, k < 16 →
    (if (Nat.digitChar k).toNat < 58 then (Nat.digitChar k).toNat - 48
      else (Nat.digitChar k).toNat - 87) = k := by
  decide

theorem fmtDecimal_digits (n : Nat) : ∀ c ∈ fmtDecimal n, c ∈ bytesOf "0123456789" := by
  intro c hc
  unfold fmtDecimal bytesOf at hc
  obtain ⟨D, hD, _, hch, _⟩ := toDigitsCore_spec 10 (by decide) (n + 1) n [] (by omega)
  have hrepr : (Nat.repr n).toList = D := by
    show Nat.toDigitsCore 10 (n + 1) n [] = D
    rw [hD, List.append_nil]
  rw [hrepr, List.mem_map] at hc
  obtain ⟨ch, hm, rfl⟩ := hc
  obtain ⟨k, hk, rfl⟩ := hch ch hm
  exact digitChar_decimal k hk

theorem fmtDecimal_no_newline (n : Nat) : 10 ∉ fmtDecimal n := by
  intro h
  have := fmtDecimal_digits n 10 h
  revert this
  decide

theorem fmtHex4_spec (n : Nat) (h : n < 65536) :
    (fmtHex4 n).length = 4 ∧ (∀ c ∈ fmtHex4 n, c ∈ bytesOf "0123456789abcdef") ∧
    hexValue (fmtHex4 n) = n := by
  obtain ⟨D, hD, hne, hch, hval⟩ := toDigitsCore_spec 16 (by decide) (n + 1) n [] (by omega)
  have hlen : D.length ≤ 4 := by
    have := Nat.toDigitsCore_length 16 (by decide) (n + 1) n 4 (by norm_num; omega) (by decide)
    rw [hD, List.append_nil] at this
    exact this
  have hds : Nat.toDigits 16 n = D := by
    unfold Nat.toDigits
    rw [hD, List.append_nil]
  unfold fmtHex4
  dsimp only
  rw [hds]
  refine ⟨?_, ?_, ?_⟩
  · rw [List.length_append, List.length_replicate, List.length_map]
    omega
  · intro c hc
    rw [List.mem_append, List.mem_replicate, List.mem_map] at hc
    rcases hc with ⟨_, rfl⟩ | ⟨ch, hm, rfl⟩
    · decide
    · obtain ⟨k, hk, rfl⟩ := hch ch hm
      exact digitChar_hex k hk
  · unfold hexValue
    rw [List.foldl_append]
    have hz : ∀ m : Nat, (List.replicate m 48).foldl
        (fun acc c => acc * 16 + (if c < 58 then c - 48 else c - 87)) 0 = 0 := by
      intro m
      induction m with
      | zero => rfl
      | succ j ih => rw [List.replicate_succ, List.foldl_cons]; exact ih
    rw [hz, List.foldl_map]
    have := hval (fun c => if c.toNat < 58 then c.toNat - 48 else c.toNat - 87)
      digitChar_hexValue 0
    rw [Nat.zero_mul, Nat.zero_add] at this
    exact this

/-! ## One line for each leaf element -/

theorem referenceValuePart_no_newline (length : Nat) (value : List Nat)
    (h : length > 1024 ∨ (length = 1 ∨ length = 2 ∨ length = 4 ∨ length = 8) ∨ 10 ∉ value) :
    10 ∉ referenceValuePart length value := by
  unfold referenceValuePart
  by_cases hbig : length > 1024
  · rw [if_pos hbig]
    decide
  · rw [if_neg hbig]
    by_cases hn : length = 1 ∨ length = 2 ∨ length = 4 ∨ length = 8
    · rw [if_pos hn]
      exact fmtDecimal_no_newline _
    · rw [if_neg hn]
      rcases h with h | h | h
      · exact absurd h hbig
      · exact absurd h hn
      · exact h

theorem tagHeader_no_newline (g e : Nat) (vr : List Nat) (l : Nat) (hg : g < 65536)
    (he : e < 65536) (hvr : 10 ∉ vr) : 10 ∉ tagHeader g e vr l := by
  have hx : ∀ n, n < 65536 → 10 ∉ fmtHex4 n := by
    intro n hn hc
    have := (fmtHex4_spec n hn).2.1 10 hc
    revert this
    decide
  unfold tagHeader
  simp only [List.mem_append, not_or]
  exact ⟨⟨⟨⟨⟨⟨⟨⟨by decide, hx g hg⟩, by decide⟩, hx e he⟩, by decide⟩, hvr⟩, by decide⟩,
    fmtDecimal_no_newline l⟩, by decide⟩

/-- C14 (amended). For every leaf element with `len(Value) = Length` and
16-bit group and element, whatever its VR and value bytes, the output of
`PrintTag` is the indentation, then `(gggg,eeee) VR(length) ` with group and
element as 4 lowercase hexadecimal digits that denote them and the length
in decimal digits, then the value part, then a newline as its last
character.  It holds exactly one newline character when the VR holds none
and the value part is the placeholder, an integer, or a text that holds
none. -/
theorem PrintTag_line (tag : Tag) (depth : Nat) (h : tag.valueBytes.length = tag.Length)
    (hg : tag.Group < 65536) (he : tag.Element < 65536) :
    PrintTag tag depth
      = ⟨List.replicate (2 * depth) 32
          ++ (bytesOf "(" ++ fmtHex4 tag.Group ++ bytesOf "," ++ fmtHex4 tag.Element
              ++ bytesOf ") " ++ tag.VR ++ bytesOf "(" ++ fmtDecimal tag.Length ++ bytesOf ") ")
          ++ referenceValuePart tag.Length tag.valueBytes ++ bytesOf "\n", false⟩ ∧
    ((fmtHex4 tag.Group).length = 4 ∧
      (∀ c ∈ fmtHex4 tag.Group, c ∈ bytesOf "0123456789abcdef") ∧
      hexValue (fmtHex4 tag.Group) = tag.Group) ∧
    ((fmtHex4 tag.Element).length = 4 ∧
      (∀ c ∈ fmtHex4 tag.Element, c ∈ bytesOf "0123456789abcdef") ∧
      hexValue (fmtHex4 tag.Element) = tag.Element) ∧
    (∀ c ∈ fmtDecimal tag.Length, c ∈ bytesOf "0123456789") ∧
    (PrintTag tag depth).out.getLast? = some 10 ∧
    (10 ∉ tag.VR →
      (tag.Length > 1024 ∨ (tag.Length = 1 ∨ tag.Length = 2 ∨ tag.Length = 4 ∨ tag.Length = 8)
        ∨ 10 ∉ tag.valueBytes) →
      (PrintTag tag depth).out.count 10 = 1) := by
  have ho := PrintTag_out tag depth h
  refine ⟨ho, fmtHex4_spec _ hg, fmtHex4_spec _ he, fmtDecimal_digits _, ?_, ?_⟩
  · rw [ho]
    exact List.getLast?_append_of_ne_nil _ (by simp) |>.trans (by simp)
  · intro hvr hval
    rw [ho]
    dsimp only
    rw [List.count_append, List.count_append, List.count_append]
    have h1 : (List.replicate (2 * depth) 32).count 10 = 0 := by
      rw [List.count_eq_zero, List.mem_replicate]
      intro hc
      exact absurd hc.2 (by decide)
    have h2 : (tagHeader tag.Group tag.Element tag.VR tag.Length).count 10 = 0 :=
      List.count_eq_zero.2 (tagHeader_no_newline _ _ _ _ hg he hvr)
    have h3 : (referenceValuePart tag.Length tag.valueBytes).count 10 = 0 :=
      List.count_eq_zero.2 (referenceValuePart_no_newline _ _ hval)
    rw [h1, h2, h3]
    rfl

/-- C14 (amended), at the element (0008,0020) of VR `DA` at depth 1. -/
theorem PrintTag_line_witness :
    (PrintTag dateTag (1 : Nat)).out = bytesOf "  (0008,0020) DA(8) 3544386989827698738\n" ∧
    (PrintTag dateTag (1 : Nat)).out.getLast? = some 10 ∧
    (PrintTag dateTag (1 : Nat)).out.count 10 = 1 := by
  have h := PrintTag_line dateTag 1 (by decide) (by decide) (by decide)
  exact ⟨by decide, h.2.2.2.2.1, h.2.2.2.2.2 (by decide) (by decide)⟩

/-- C14 fails for a leaf element whose value is rendered as text and holds a
newline byte: the 3-byte value `a`, newline, `b` gives an output with two
newline characters. -/
theorem PrintTag_newline_counterexample :
    newlineTag.valueBytes.length = newlineTag.Length ∧
    (PrintTag newlineTag 0).out = bytesOf "(0010,0010) PN(3) a\nb\n" ∧
    (PrintTag newlineTag 0).out.count 10 = 2 := by
  decide

/-! ## The listing of the minimal file -/

theorem dataLoop_of_stop (x : Bool) (fuel : Nat) (s : DataState) (out : List Nat)
    (h : dataStep x s = .stop) :
    dataLoop x (fuel + 1) s out = some ⟨out, .returned none⟩ := by
  rw [dataLoop, h]

set_option maxRecDepth 100000 in
theorem minimalFileWith_preamble (value : List Nat) :
    readPreamble (minimalFileWith value)
      = (bytesOf "DICM", { data := (minimalFileWith value).data, pos := 132 }) := by
  rfl

set_option maxRecDepth 100000 in
theorem minimalFileWith_tag (value : List Nat) :
    ReadGroupAndElement { data := (minimalFileWith value).data, pos := 132 }
      = ((2, 16), { data := (minimalFileWith value).data, pos := 136 }) := by
  rfl

set_option maxRecDepth 100000 in
theorem minimalFileWith_vr (value : List Nat) :
    File.Read { data := (minimalFileWith value).data, pos := 136 } 2
      = (bytesOf "UI", { data := (minimalFileWith value).data, pos := 138 }) := by
  rfl

set_option maxRecDepth 100000 in
theorem minimalFileWith_len (value : List Nat) :
    readExplicitLength (bytesOf "UI") { data := (minimalFileWith value).data, pos := 138 }
      = (18, { data := (minimalFileWith value).data, pos := 140 }) := by
  rfl

set_option maxRecDepth 100000 in
theorem minimalFileWith_drop (value : List Nat) :
    (minimalFileWith value).data.drop 140 = value ++ [0, 0, 0, 0] := by
  rfl

theorem minimalFileWith_length (value : List Nat) (h : value.length = 18) :
    (minimalFileWith value).data.length = 162 := by
  unfold minimalFileWith
  simp only [List.length_append, List.length_replicate, h]
  rfl

theorem minimalFileWith_value (value : List Nat) (h : value.length = 18) :
    File.Read { data := (minimalFileWith value).data, pos := 140 } 18
      = (value, { data := (minimalFileWith value).data, pos := 158 }) := by
  unfold File.Read padTake
  dsimp only
  rw [minimalFileWith_drop, List.take_left' h, h]
  simp

theorem minimalFileWith_sentinel (value : List Nat) (h : value.length = 18) :
    ReadGroupAndElement { data := (minimalFileWith value).data, pos := 158 }
      = ((0, 0), { data := (minimalFileWith value).data, pos := 162 }) := by
  have hd : (minimalFileWith value).data.drop 158 = [0, 0, 0, 0] := by
    have : (158 : Nat) = 140 + 18 := rfl
    rw [this, ← List.drop_drop, minimalFileWith_drop, List.drop_left' h]
  have hd2 : (minimalFileWith value).data.drop 160 = [0, 0] := by
    have : (160 : Nat) = 158 + 2 := rfl
    rw [this, ← List.drop_drop, hd]
    rfl
  unfold ReadGroupAndElement File.Read
  dsimp only
  rw [hd]
  have h2 : (158 + (List.take 2 [0, 0, 0, 0]).length : Nat) = 160 := rfl
  rw [h2, hd2]
  rfl

theorem minimalFileWith_element (value : List Nat) (h : value.length = 18) :
    ReadExplicitVRTag { data := (minimalFileWith value).data, pos := 136 }
      = (⟨0, 0, bytesOf "UI", 18, some value⟩,
         { data := (minimalFileWith value).data, pos := 158 }) :=
  ReadExplicitVRTag_of_leaf _ _ _ _ (bytesOf "UI") value 18
    (minimalFileWith_vr value) (minimalFileWith_len value) (by decide)
    (minimalFileWith_value value h)

theorem minimalFileWith_print (value : List Nat) :
    PrintTag ⟨2, 16, bytesOf "UI", 18, some value⟩ 0
      = ⟨bytesOf "(0002,0010) UI(18) " ++ value ++ bytesOf "\n", false⟩ := by
  have hp := PrintTag_text ⟨2, 16, bytesOf "UI", 18, some value⟩ 0
    (by dsimp only; decide) (by dsimp only; decide)
  have h1 : tagHeader 2 16 (bytesOf "UI") 18 = bytesOf "(0002,0010) UI(18) " := by rfl
  rw [h1] at hp
  exact hp

theorem minimalFileWith_meta (value : List Nat) (h : value.length = 18) :
    metaLoop 163 { file := { data := (minimalFileWith value).data, pos := 132 },
                   transferSyntaxUID := [] } (bytesOf "Meta Header:\n")
      = some (.done 0 0
          { file := { data := (minimalFileWith value).data, pos := 158 },
            transferSyntaxUID := value }
          (bytesOf "Meta Header:\n" ++ (bytesOf "(0002,0010) UI(18) " ++ value ++ bytesOf "\n"))) := by
  have s1 : metaStep { file := { data := (minimalFileWith value).data, pos := 132 },
                       transferSyntaxUID := [] }
      = .next { file := { data := (minimalFileWith value).data, pos := 158 },
                transferSyntaxUID := value }
          (bytesOf "(0002,0010) UI(18) " ++ value ++ bytesOf "\n") :=
    metaStep_of_next _ 16 _ _ _ _ (minimalFileWith_tag value)
      (minimalFileWith_element value h) (minimalFileWith_print value)
  have s2 : metaStep { file := { data := (minimalFileWith value).data, pos := 158 },
                       transferSyntaxUID := value }
      = .stop 0 0 { file := { data := (minimalFileWith value).data, pos := 158 },
                    transferSyntaxUID := value } := by
    have := metaStep_of_stop ⟨⟨(minimalFileWith value).data, 158⟩, value⟩ 0 0 _
      (minimalFileWith_sentinel value h) (by decide)
    rw [this]
    have hs := Seek_back_four ⟨(minimalFileWith value).data, 0⟩ 158
    dsimp only at hs ⊢
    rw [hs]
  rw [metaLoop_of_next 162 _ _ _ _ s1, metaLoop_of_stop 161 _ _ 0 0 _ s2]

/-- C16. For the minimal file with any 18 value bytes, `ParseDicomFile`
returns `nil` after writing `Meta Header:`, then exactly one element line,
the output of `PrintTag` for the element (0002,0010), then the empty line
and `Data Set:` with no element or marker line after it. -/
theorem minimal_listing (value : List Nat) (h : value.length = 18) :
    ParseDicomFile (minimalFileWith value)
      = some ⟨bytesOf "Meta Header:\n" ++ (bytesOf "(0002,0010) UI(18) " ++ value ++ bytesOf "\n")
          ++ bytesOf "\n" ++ bytesOf "Data Set:\n", .returned none⟩ ∧
    PrintTag ⟨0x0002, 0x0010, bytesOf "UI", 18, some value⟩ 0
      = ⟨bytesOf "(0002,0010) UI(18) " ++ value ++ bytesOf "\n", false⟩ := by
  refine ⟨?_, minimalFileWith_print value⟩
  unfold ParseDicomFile ParseDicomFileFuel
  rw [minimalFileWith_preamble, minimalFileWith_length value h]
  dsimp only
  rw [if_neg (by decide)]
  unfold parseBody
  rw [minimalFileWith_meta value h]
  dsimp only
  exact dataLoop_of_stop _ 162 _ _ (dataStep_stop _ _ (by
    rw [minimalFileWith_sentinel value h]
    exact ⟨rfl, rfl⟩))

set_option maxRecDepth 100000 in
/-- C16, at the value `1.2.840.10008.1.2` padded with a zero byte. -/
theorem minimal_listing_witness :
    ParseDicomFile (minimalFileWith (bytesOf "1.2.840.10008.1.2" ++ [0]))
      = some ⟨bytesOf "Meta Header:\n(0002,0010) UI(18) 1.2.840.10008.1.2\x00\n\nData Set:\n",
          .returned none⟩ :=
  ((minimal_listing (bytesOf "1.2.840.10008.1.2" ++ [0]) (by decide)).1).trans (by decide)

/-! ## Rendering in the two loops -/

set_option maxRecDepth 100000 in
/-- C19 (the code at a meta-header sequence element). The file passes the
marker check; `ReadExplicitVRTag` returns for the element (0002,0001) a tag
of VR `SQ` with Length 1 and no Value; the meta-header loop passes it to
`PrintTag`, which writes the head of the line and then panics on
`tag.Value[0]`; `ParseDicomFile` ends in that panic. -/
theorem meta_sequence_panics :
    (readPreamble metaSequenceFile).1 = bytesOf "DICM" ∧
    (ReadExplicitVRTag { metaSequenceFile with pos := 136 }).1
      = { Group := 0, Element := 0, VR := bytesOf "SQ", Length := 1, Value := none } ∧
    PrintTag { Group := 0x0002, Element := 0x0001, VR := bytesOf "SQ", Length := 1, Value := none } 0
      = ⟨bytesOf "(0002,0001) SQ(1) ", true⟩ ∧
    ParseDicomFile metaSequenceFile
      = some ⟨bytesOf "Meta Header:\n(0002,0001) SQ(1) ", .panicked⟩ := by
  decide

/-- In the data-set loop `PrintTag` returns: at a depth that is not
negative no iteration ends in a panic. -/
theorem dataStep_no_panic (x : Bool) (s : DataState) (o : List Nat) (hd : 0 ≤ s.seqDepth) :
    dataStep x s ≠ .panic o := by
  intro h
  by_cases h0 : (ReadGroupAndElement s.file).1.1 = 0 ∧ (ReadGroupAndElement s.file).1.2 = 0
  · rw [dataStep_stop x s h0] at h
    exact DataStep.noConfusion h
  · by_cases hi : (ReadGroupAndElement s.file).1.1 = 0xfffe
        ∧ (ReadGroupAndElement s.file).1.2 = 0xe000
    · rw [(dataStep_item x s h0 hi).2] at h
      exact DataStep.noConfusion h
    · obtain ⟨t, ht⟩ : ∃ t : Tag × File,
          t = if x = true then ReadExplicitVRTag (ReadGroupAndElement s.file).2
            else ReadImplicitVRTag (ReadGroupAndElement s.file).2 := ⟨_, rfl⟩
      by_cases hsq : t.1.VR = bytesOf "SQ"
      · rw [(dataStep_sequence x s t ht h0 hi hsq).2] at h
        exact DataStep.noConfusion h
      · obtain ⟨v, hv, hl⟩ := dataTag_value_length x _ t ht hsq
        rw [(dataStep_leaf x s t ht h0 hi hsq).2] at h
        have hcast : s.seqDepth = ((s.seqDepth.toNat : Nat) : Int) :=
          (Int.toNat_of_nonneg hd).symm
        have hp := PrintTag_out ⟨(ReadGroupAndElement s.file).1.1,
          (ReadGroupAndElement s.file).1.2, t.1.VR, t.1.Length, t.1.Value⟩ s.seqDepth.toNat
          (by show (t.1.Value.getD []).length = t.1.Length; rw [hv]; exact hl)
        rw [← hcast] at hp
        rw [hp] at h
        dsimp only at h
        rw [if_neg (by decide)] at h
        exact DataStep.noConfusion h

/-! ## Termination -/

theorem metaLoop_fuel (fuel : Nat) :
    ∀ (s : MetaState) (out : List Nat) (r : MetaEnd), metaLoop fuel s out = some r →
      ∀ k, metaLoop (fuel + k) s out = some r := by
  induction fuel with
  | zero => intro s out r h; exact Option.noConfusion h
  | succ f ih =>
    intro s out r h k
    rw [Nat.add_right_comm]
    unfold metaLoop at h ⊢
    cases hm : metaStep s with
    | stop g e s1 => rw [hm] at h; exact h
    | panic o => rw [hm] at h; exact h
    | next s1 o =>
      rw [hm] at h
      exact ih s1 (out ++ o) r h k

theorem dataLoop_fuel (x : Bool) (fuel : Nat) :
    ∀ (s : DataState) (out : List Nat) (r : Run), dataLoop x fuel s out = some r →
      ∀ k, dataLoop x (fuel + k) s out = some r := by
  induction fuel with
  | zero => intro s out r h; exact Option.noConfusion h
  | succ f ih =>
    intro s out r h k
    rw [Nat.add_right_comm]
    unfold dataLoop at h ⊢
    cases hm : dataStep x s with
    | stop => rw [hm] at h; exact h
    | panic o => rw [hm] at h; exact h
    | next s1 o =>
      rw [hm] at h
      exact ih s1 (out ++ o) r h k

theorem parseBody_fuel (fuel : Nat) (file : File) (r : Run) (h : parseBody fuel file = some r)
    (k : Nat) : parseBody (fuel + k) file = some r := by
  unfold parseBody at h ⊢
  cases hm : metaLoop fuel { file := file, transferSyntaxUID := [] } (bytesOf "Meta Header:\n") with
  | none => rw [hm] at h; exact Option.noConfusion h
  | some e =>
    rw [hm] at h
    rw [metaLoop_fuel fuel _ _ e hm k]
    cases e with
    | panic out => exact h
    | done g el s out => exact dataLoop_fuel _ fuel _ _ r h k

theorem metaRun_succ (n : Nat) (s s' : MetaState) (h : metaRun (n + 1) s = some s') :
    ∃ s1 o, metaRun n s = some s1 ∧ metaStep s1 = .next s' o := by
  unfold metaRun at h
  cases hr : metaRun n s with
  | none => rw [hr] at h; exact Option.noConfusion h
  | some s1 =>
    rw [hr] at h
    dsimp only [Option.bind] at h
    split at h
    · rename_i s2 o hs
      simp only [Option.some.injEq] at h
      subst h
      exact ⟨s1, o, rfl, hs⟩
    · exact Option.noConfusion h

theorem metaRun_bound (n : Nat) :
    ∀ s s', metaRun n s = some s' →
      s'.file.data = s.file.data ∧ s.file.pos + n ≤ s'.file.pos ∧ n ≤ s.file.remaining := by
  induction n with
  | zero =>
    intro s s' h
    simp only [metaRun, Option.some.injEq] at h
    subst h
    exact ⟨rfl, le_refl _, Nat.zero_le _⟩
  | succ k ih =>
    intro s s' h
    obtain ⟨s1, o, h1, h2⟩ := metaRun_succ k s s' h
    obtain ⟨hd, hp, _⟩ := ih s s1 h1
    obtain ⟨hd2, hlt, hp2⟩ := metaStep_next s1 s' o h2
    rw [hd] at hlt
    unfold File.remaining
    exact ⟨hd2.trans hd, by omega, by omega⟩

theorem dataRun_bound (x : Bool) (n : Nat) :
    ∀ t t', dataRun x n t = some t' →
      t'.state.file.data = t.state.file.data ∧ t.state.file.pos + n ≤ t'.state.file.pos ∧
      n ≤ t.state.file.remaining := by
  induction n with
  | zero =>
    intro t t' h
    simp only [dataRun, Option.some.injEq] at h
    subst h
    exact ⟨rfl, le_refl _, Nat.zero_le _⟩
  | succ k ih =>
    intro t t' h
    obtain ⟨t1, h1, h2⟩ := dataRun_succ x k t t' h
    obtain ⟨hd, hp, _⟩ := ih t t1 h1
    obtain ⟨o, hs, _, _⟩ := trackStep_some x t1 t' h2
    obtain ⟨hd2, hlt, hp2⟩ := dataStep_next x _ _ o hs
    rw [hd] at hlt
    unfold File.remaining
    exact ⟨hd2.trans hd, by omega, by omega⟩

/-- C18. For every file `ParseDicomFile` ends, and with the same result for
every larger bound on the iterations.  Every iteration of the meta-header
loop and of the data-set loop that does not exit starts with a byte left in
the stream and moves the cursor forward, on the same content; so either
loop performs at most as many iterations as bytes remained when it
started. -/
theorem ParseDicomFile_terminates (f : File) :
    (∃ run, ParseDicomFile f = some run ∧
      ∀ fuel, f.data.length + 1 ≤ fuel → ParseDicomFileFuel fuel f = some run) ∧
    (∀ s s1 o, metaStep s = .next s1 o →
      s1.file.data = s.file.data ∧ s.file.pos < s.file.data.length ∧ s.file.pos < s1.file.pos) ∧
    (∀ x s s1 o, dataStep x s = .next s1 o →
      s1.file.data = s.file.data ∧ s.file.pos < s.file.data.length ∧ s.file.pos < s1.file.pos) ∧
    (∀ n s s', metaRun n s = some s' → n ≤ s.file.remaining) ∧
    (∀ x n t t', dataRun x n t = some t' → n ≤ t.state.file.remaining) := by
  refine ⟨?_, metaStep_next, dataStep_next, fun n s s' h => (metaRun_bound n s s' h).2.2,
    fun x n t t' h => (dataRun_bound x n t t' h).2.2⟩
  obtain ⟨run, hr, _⟩ := ParseDicomFile_total f
  refine ⟨run, hr, fun fuel hf => ?_⟩
  obtain ⟨k, rfl⟩ := Nat.exists_eq_add_of_le hf
  unfold ParseDicomFile at hr
  unfold ParseDicomFileFuel at hr ⊢
  dsimp only at hr ⊢
  split at hr
  · rename_i hbad
    rw [if_pos hbad]
    exact hr
  · rename_i hgood
    rw [if_neg hgood]
    exact parseBody_fuel _ _ run hr k

set_option maxRecDepth 100000 in
/-- C18, at the file cut off in its first element: a bound of 1000
iterations gives the result of `ParseDicomFile`. -/
theorem ParseDicomFile_terminates_witness :
    ParseDicomFileFuel 1000 truncatedFile = ParseDicomFile truncatedFile := by
  obtain ⟨run, hr, hf⟩ := (ParseDicomFile_terminates truncatedFile).1
  exact (hf 1000 (by decide)).trans hr.symm

/-! ## The encoding mode -/

theorem isExplicitVR_false_iff (ts : List Nat) :
    isExplicitVR ts = false ↔ ts = bytesOf "1.2.840.10008.1.2" := by
  unfold isExplicitVR
  by_cases h : ts = bytesOf "1.2.840.10008.1.2"
  · rw [if_pos h]
    exact ⟨fun _ => h, fun _ => rfl⟩
  · rw [if_neg h]
    exact ⟨fun hc => Bool.noConfusion hc, fun hc => absurd hc h⟩

theorem dataStep_decode (x : Bool) (s : DataState)
    (h0 : ¬ ((ReadGroupAndElement s.file).1.1 = 0 ∧ (ReadGroupAndElement s.file).1.2 = 0))
    (hi : ¬ ((ReadGroupAndElement s.file).1.1 = 0xfffe
      ∧ (ReadGroupAndElement s.file).1.2 = 0xe000)) :
    dataStep x s = afterDecode s (ReadGroupAndElement s.file).1.1 (ReadGroupAndElement s.file).1.2
      (if x = true then ReadExplicitVRTag (ReadGroupAndElement s.file).2
        else ReadImplicitVRTag (ReadGroupAndElement s.file).2) := by
  unfold dataStep afterDecode
  dsimp only
  rw [if_neg h0, if_neg hi]

theorem metaStep_uid (s s2 : MetaState) (o : List Nat) (h : metaStep s = .next s2 o) :
    s2.transferSyntaxUID
      = if (ReadGroupAndElement s.file).1.2 = 0x0010
        then (ReadExplicitVRTag (ReadGroupAndElement s.file).2).1.valueBytes
        else s.transferSyntaxUID := by
  unfold metaStep at h
  dsimp only at h
  split at h
  · exact MetaStep.noConfusion h
  · split at h
    · exact MetaStep.noConfusion h
    · injection h with h1 _
      rw [← h1]
      rfl

theorem metaRun_uid (n : Nat) :
    ∀ s s', metaRun n s = some s' →
      (∀ k sk, k < n → metaRun k s = some sk → (ReadGroupAndElement sk.file).1.2 ≠ 0x0010) →
      s'.transferSyntaxUID = s.transferSyntaxUID := by
  induction n with
  | zero =>
    intro s s' h _
    simp only [metaRun, Option.some.injEq] at h
    rw [h]
  | succ k ih =>
    intro s s' h hno
    obtain ⟨s1, o, h1, h2⟩ := metaRun_succ k s s' h
    rw [metaStep_uid s1 s' o h2, if_neg (hno k s1 (Nat.lt_succ_self k) h1)]
    exact ih s s1 h1 (fun j sj hj hr => hno j sj (Nat.lt_succ_of_lt hj) hr)

theorem metaRun_front (n : Nat) :
    ∀ s s1 o, metaStep s = .next s1 o → metaRun (n + 1) s = metaRun n s1 := by
  induction n with
  | zero =>
    intro s s1 o h
    simp only [metaRun, Option.bind, h]
  | succ k ih =>
    intro s s1 o h
    rw [metaRun, ih s s1 o h]
    rfl

theorem metaLoop_run (fuel : Nat) :
    ∀ (s : MetaState) (out : List Nat) (g e : Nat) (s1 : MetaState) (out1 : List Nat),
      metaLoop fuel s out = some (.done g e s1 out1) →
      ∃ n b, metaRun n s = some b ∧ metaStep b = .stop g e s1
        ∧ s1.transferSyntaxUID = b.transferSyntaxUID := by
  induction fuel with
  | zero => intro s out g e s1 out1 h; exact Option.noConfusion h
  | succ k ih =>
    intro s out g e s1 out1 h
    unfold metaLoop at h
    cases hm : metaStep s with
    | stop g0 e0 s0 =>
      rw [hm] at h
      simp only [Option.some.injEq, MetaEnd.done.injEq] at h
      obtain ⟨hg, he, hs, _⟩ := h
      subst hg he hs
      refine ⟨0, s, rfl, hm, ?_⟩
      rw [(metaStep_stop s _ _ _ hm).2.2.2.2]
    | panic o =>
      rw [hm] at h
      simp only [Option.some.injEq] at h
      exact MetaEnd.noConfusion h
    | next s0 o =>
      rw [hm] at h
      obtain ⟨n, b, hb, hst, hts⟩ := ih s0 (out ++ o) g e s1 out1 h
      exact ⟨n + 1, b, (metaRun_front n s s0 o hm).trans hb, hst, hts⟩

/-! ## Reads that stay within a common beginning of two files -/

theorem take_drop_within (d1 d2 : List Nat) (P pos n : Nat) (h : d1.take P = d2.take P)
    (hn : pos + n ≤ P) : (d1.drop pos).take n = (d2.drop pos).take n := by
  have key : ∀ d : List Nat, (d.drop pos).take n = ((d.take P).drop pos).take n := by
    intro d
    rw [List.drop_take, List.take_take, Nat.min_eq_left (by omega)]
  rw [key d1, key d2, h]

/-- A read after which the cursor is within the first `P` bytes of a longer
file was served in full from those bytes. -/
theorem Read_within (f : File) (n P : Nat) (h : (f.Read n).2.pos ≤ P)
    (hl : P < f.data.length) : f.pos + n ≤ P := by
  rw [Read_pos] at h
  by_cases hc : n ≤ f.data.length - f.pos
  · rw [Nat.min_eq_left hc] at h
    exact h
  · rw [Nat.min_eq_right (by omega)] at h
    omega

theorem Read_agree (P : Nat) (f1 f2 : File) (n : Nat) (ha : Agree P f1 f2)
    (h : (f1.Read n).2.pos ≤ P) :
    (f2.Read n).1 = (f1.Read n).1 ∧ Agree P (f1.Read n).2 (f2.Read n).2 := by
  obtain ⟨hp, ht, hl1, hl2⟩ := ha
  have hn := Read_within f1 n P h hl1
  have e1 : (f1.Read n).2.pos = f1.pos + n := Read_pos_of_le f1 n (by omega)
  have e2 : (f2.Read n).2.pos = f2.pos + n := Read_pos_of_le f2 n (by omega)
  refine ⟨?_, ?_, ?_, ?_, ?_⟩
  · rw [Read_buf_of_le f1 n (by omega), Read_buf_of_le f2 n (by omega), ← hp]
    exact (take_drop_within _ _ P f1.pos n ht hn).symm
  · rw [e1, e2, hp]
  · exact ht
  · exact hl1
  · exact hl2

theorem Seek_two_agree (P : Nat) (f1 f2 : File) (ha : Agree P f1 f2) :
    Agree P (f1.Seek 2 1) (f2.Seek 2 1) := by
  obtain ⟨hp, ht, hl1, hl2⟩ := ha
  have h1 := Seek_forward_pos f1 2
  have h2 := Seek_forward_pos f2 2
  simp only [Nat.cast_ofNat] at h1 h2
  exact ⟨by rw [h1, h2, hp], by rw [Seek_data, Seek_data]; exact ht,
    by rw [Seek_data]; exact hl1, by rw [Seek_data]; exact hl2⟩

theorem ReadGroupAndElement_agree (P : Nat) (f1 f2 : File) (ha : Agree P f1 f2)
    (h : (ReadGroupAndElement f1).2.pos ≤ P) :
    (ReadGroupAndElement f2).1 = (ReadGroupAndElement f1).1
      ∧ Agree P (ReadGroupAndElement f1).2 (ReadGroupAndElement f2).2 := by
  unfold ReadGroupAndElement at h ⊢
  dsimp only at h ⊢
  have hA := Read_agree P f1 f2 2 ha (le_trans (Read_pos_le _ 2) h)
  have hB := Read_agree P _ _ 2 hA.2 h
  exact ⟨by rw [hA.1, hB.1], hB.2⟩

theorem readExplicitLength_agree (P : Nat) (vr : List Nat) (f1 f2 : File) (ha : Agree P f1 f2)
    (h : (readExplicitLength vr f1).2.pos ≤ P) :
    (readExplicitLength vr f2).1 = (readExplicitLength vr f1).1
      ∧ Agree P (readExplicitLength vr f1).2 (readExplicitLength vr f2).2 := by
  by_cases hs : vr ∈ shortFormVRs
  · rw [readExplicitLength_short _ _ hs] at h ⊢
    rw [readExplicitLength_short _ _ hs]
    dsimp only at h ⊢
    have hA := Read_agree P f1 f2 2 ha h
    exact ⟨by rw [hA.1], hA.2⟩
  · rw [readExplicitLength_long _ _ hs] at h ⊢
    rw [readExplicitLength_long _ _ hs]
    dsimp only at h ⊢
    have hA := Read_agree P _ _ 4 (Seek_two_agree P f1 f2 ha) h
    exact ⟨by rw [hA.1], hA.2⟩

theorem ReadExplicitVRTag_agree (P : Nat) (f1 f2 : File) (ha : Agree P f1 f2)
    (h : (ReadExplicitVRTag f1).2.pos ≤ P) :
    (ReadExplicitVRTag f2).1 = (ReadExplicitVRTag f1).1
      ∧ Agree P (ReadExplicitVRTag f1).2 (ReadExplicitVRTag f2).2 := by
  by_cases hsq : f1.window 0 2 = bytesOf "SQ"
  · have h1 := ReadExplicitVRTag_sq f1 hsq
    rw [h1] at h
    dsimp only at h
    have hA := Read_agree P f1 f2 2 ha
      (le_trans (readExplicitLength_pos_le _ _) h)
    have hw : f2.window 0 2 = f1.window 0 2 := by rw [← Read_buf, ← Read_buf]; exact hA.1
    have hB := readExplicitLength_agree P (f1.window 0 2) _ _ hA.2 h
    rw [h1, ReadExplicitVRTag_sq f2 (hw.trans hsq), hw]
    dsimp only
    exact ⟨by rw [hB.1], hB.2⟩
  · have h1 := ReadExplicitVRTag_leaf f1 hsq
    rw [h1] at h
    dsimp only at h
    have hle := Read_pos_le (readExplicitLength (f1.window 0 2) (f1.Read 2).2).2
      (readExplicitLength (f1.window 0 2) (f1.Read 2).2).1
    have hA := Read_agree P f1 f2 2 ha
      (le_trans (readExplicitLength_pos_le _ _) (le_trans hle h))
    have hw : f2.window 0 2 = f1.window 0 2 := by rw [← Read_buf, ← Read_buf]; exact hA.1
    have hB := readExplicitLength_agree P (f1.window 0 2) _ _ hA.2 (le_trans hle h)
    have hC := Read_agree P _ _ (readExplicitLength (f1.window 0 2) (f1.Read 2).2).1 hB.2 h
    rw [h1, ReadExplicitVRTag_leaf f2 (by rw [hw]; exact hsq), hw, hB.1]
    dsimp only
    exact ⟨by rw [hC.1], hC.2⟩

theorem ReadImplicitVRTag_agree (P : Nat) (f1 f2 : File) (ha : Agree P f1 f2)
    (h : (ReadImplicitVRTag f1).2.pos ≤ P) :
    (ReadImplicitVRTag f2).1 = (ReadImplicitVRTag f1).1
      ∧ Agree P (ReadImplicitVRTag f1).2 (ReadImplicitVRTag f2).2 := by
  unfold ReadImplicitVRTag at h ⊢
  dsimp only at h ⊢
  have hA := Read_agree P f1 f2 4 ha (le_trans (Read_pos_le _ _) h)
  rw [hA.1]
  have hC := Read_agree P _ _ (Uint32 (f1.Read 4).1) hA.2 h
  exact ⟨by rw [hC.1], hC.2⟩

/-! ## The data-set loop on two files with a common beginning -/

theorem decode_agree (x : Bool) (P : Nat) (f1 f2 : File) (ha : Agree P f1 f2)
    (h : (if x = true then ReadExplicitVRTag f1 else ReadImplicitVRTag f1).2.pos ≤ P) :
    (if x = true then ReadExplicitVRTag f2 else ReadImplicitVRTag f2).1
        = (if x = true then ReadExplicitVRTag f1 else ReadImplicitVRTag f1).1 ∧
    Agree P (if x = true then ReadExplicitVRTag f1 else ReadImplicitVRTag f1).2
      (if x = true then ReadExplicitVRTag f2 else ReadImplicitVRTag f2).2 := by
  cases x with
  | true =>
    rw [if_pos rfl] at h ⊢
    rw [if_pos rfl]
    exact ReadExplicitVRTag_agree P f1 f2 ha h
  | false =>
    rw [if_neg (by decide)] at h ⊢
    rw [if_neg (by decide)]
    exact ReadImplicitVRTag_agree P f1 f2 ha h

theorem decode_pos_le (x : Bool) (f : File) :
    f.pos ≤ (if x = true then ReadExplicitVRTag f else ReadImplicitVRTag f).2.pos := by
  split
  · exact ReadExplicitVRTag_pos_le f
  · exact ReadImplicitVRTag_pos_le f

theorem dataStep_agree (x : Bool) (P : Nat) (s1 s2 s1' : DataState) (o : List Nat)
    (ha : Agree P s1.file s2.file) (hd : s2.seqDepth = s1.seqDepth)
    (hc : s2.seqLengthRemaining = s1.seqLengthRemaining)
    (h : dataStep x s1 = .next s1' o) (hp : s1'.file.pos ≤ P) :
    ∃ s2', dataStep x s2 = .next s2' o ∧ Agree P s1'.file s2'.file ∧
      s2'.seqDepth = s1'.seqDepth ∧ s2'.seqLengthRemaining = s1'.seqLengthRemaining ∧
      dataEvent x s2 = dataEvent x s1 := by
  have h0 := dataStep_next_ne x s1 s1' o h
  by_cases hi : (ReadGroupAndElement s1.file).1.1 = 0xfffe
      ∧ (ReadGroupAndElement s1.file).1.2 = 0xe000
  · obtain ⟨he, hs⟩ := dataStep_item x s1 h0 hi
    rw [hs] at h
    injection h with h1 h2
    subst h1 h2
    dsimp only at hp ⊢
    have hA := ReadGroupAndElement_agree P _ _ ha (le_trans (Read_pos_le _ 4) hp)
    have hB := Read_agree P _ _ 4 hA.2 hp
    have h0' : ¬ ((ReadGroupAndElement s2.file).1.1 = 0
        ∧ (ReadGroupAndElement s2.file).1.2 = 0) := by rw [hA.1]; exact h0
    have hi' : (ReadGroupAndElement s2.file).1.1 = 0xfffe
        ∧ (ReadGroupAndElement s2.file).1.2 = 0xe000 := by rw [hA.1]; exact hi
    obtain ⟨he2, hs2⟩ := dataStep_item x s2 h0' hi'
    rw [hA.1, hB.1, hc, hd] at hs2
    rw [hB.1] at he2
    refine ⟨_, hs2, ?_, ?_, ?_, ?_⟩
    · exact hB.2
    · dsimp only
    · dsimp only
    · rw [he, he2]
  · obtain ⟨t1, ht1⟩ : ∃ t : Tag × File,
        t = if x = true then ReadExplicitVRTag (ReadGroupAndElement s1.file).2
          else ReadImplicitVRTag (ReadGroupAndElement s1.file).2 := ⟨_, rfl⟩
    obtain ⟨t2, ht2⟩ : ∃ t : Tag × File,
        t = if x = true then ReadExplicitVRTag (ReadGroupAndElement s2.file).2
          else ReadImplicitVRTag (ReadGroupAndElement s2.file).2 := ⟨_, rfl⟩
    have key : t1.2.pos ≤ P → (ReadGroupAndElement s2.file).1 = (ReadGroupAndElement s1.file).1
        ∧ t2.1 = t1.1 ∧ Agree P t1.2 t2.2 := by
      intro hle
      have hA := ReadGroupAndElement_agree P _ _ ha
        (le_trans (by rw [ht1]; exact decode_pos_le x _) hle)
      have hB := decode_agree x P _ _ hA.2 (by rw [← ht1]; exact hle)
      rw [← ht1, ← ht2] at hB
      exact ⟨hA.1, hB.1, hB.2⟩
    by_cases hsq : t1.1.VR = bytesOf "SQ"
    · obtain ⟨he, hs⟩ := dataStep_sequence x s1 t1 ht1 h0 hi hsq
      rw [hs] at h
      injection h with h1 h2
      subst h1 h2
      dsimp only at hp ⊢
      obtain ⟨hg, htt, hag⟩ := key hp
      obtain ⟨he2, hs2⟩ := dataStep_sequence x s2 t2 ht2 (by rw [hg]; exact h0)
        (by rw [hg]; exact hi) (by rw [htt]; exact hsq)
      rw [hg, htt, hd] at hs2
      rw [htt] at he2
      refine ⟨_, hs2, ?_, ?_, ?_, ?_⟩
      · exact hag
      · dsimp only
      · dsimp only
      · rw [he, he2]
    · obtain ⟨he, hs⟩ := dataStep_leaf x s1 t1 ht1 h0 hi hsq
      rw [hs] at h
      by_cases hpan : (PrintTag ⟨(ReadGroupAndElement s1.file).1.1,
          (ReadGroupAndElement s1.file).1.2, t1.1.VR, t1.1.Length, t1.1.Value⟩
          s1.seqDepth).panicked = true
      · rw [if_pos hpan] at h
        exact DataStep.noConfusion h
      · rw [if_neg hpan] at h
        injection h with h1 h2
        subst h1 h2
        dsimp only at hp ⊢
        obtain ⟨hg, htt, hag⟩ := key hp
        obtain ⟨he2, hs2⟩ := dataStep_leaf x s2 t2 ht2 (by rw [hg]; exact h0)
          (by rw [hg]; exact hi) (by rw [htt]; exact hsq)
        rw [hg, htt, hd, if_neg hpan] at hs2
        refine ⟨_, hs2, ?_, ?_, ?_, ?_⟩
        · exact hag
        · dsimp only
        · exact hc
        · rw [he, he2]

theorem dataRun_agree (x : Bool) (P : Nat) (n : Nat) :
    ∀ (t1 t2 t1' : Tracked), Agree P t1.state.file t2.state.file →
      t2.state.seqDepth = t1.state.seqDepth →
      t2.state.seqLengthRemaining = t1.state.seqLengthRemaining →
      t2.out = t1.out → t2.frame = t1.frame →
      dataRun x n t1 = some t1' → t1'.state.file.pos ≤ P →
      ∃ t2', dataRun x n t2 = some t2' ∧ Agree P t1'.state.file t2'.state.file ∧
        t2'.state.seqDepth = t1'.state.seqDepth ∧
        t2'.state.seqLengthRemaining = t1'.state.seqLengthRemaining ∧
        t2'.out = t1'.out ∧ t2'.frame = t1'.frame := by
  induction n with
  | zero =>
    intro t1 t2 t1' ha hd hc ho hf h hp
    simp only [dataRun, Option.some.injEq] at h
    subst h
    exact ⟨t2, rfl, ha, hd, hc, ho, hf⟩
  | succ k ih =>
    intro t1 t2 t1' ha hd hc ho hf h hp
    obtain ⟨m1, hm1, hst⟩ := dataRun_succ x k t1 t1' h
    obtain ⟨o, hs, hout, hfr⟩ := trackStep_some x m1 t1' hst
    have hmp : m1.state.file.pos ≤ P :=
      le_trans (Nat.le_of_lt (dataStep_next x _ _ o hs).2.2) hp
    obtain ⟨m2, hm2, ha', hd', hc', ho', hf'⟩ := ih t1 t2 m1 ha hd hc ho hf hm1 hmp
    obtain ⟨s2', hs2, hag, hd2, hc2, hev⟩ :=
      dataStep_agree x P m1.state m2.state t1'.state o ha' hd' hc' hs hp
    refine ⟨{ state := s2', out := m2.out ++ o,
              frame := m2.frame.record (dataEvent x m2.state) }, ?_, hag, hd2, hc2, ?_, ?_⟩
    · rw [dataRun, hm2]
      show trackStep x m2 = _
      unfold trackStep
      rw [hs2]
    · show m2.out ++ o = t1'.out
      rw [ho', hout]
    · show m2.frame.record (dataEvent x m2.state) = t1'.frame
      rw [hf', hev, hfr]

/-! ## The end of the data set -/

theorem dataRun_front (x : Bool) (n : Nat) :
    ∀ t, dataRun x (n + 1) t = (trackStep x t).bind (dataRun x n) := by
  induction n with
  | zero =>
    intro t
    show (some t).bind (trackStep x) = (trackStep x t).bind (fun t1 => some t1)
    rw [Option.some_bind, Option.bind_some]
  | succ k ih =>
    intro t
    rw [dataRun, ih t, Option.bind_assoc]
    rfl

theorem dataLoop_of_run (x : Bool) (n : Nat) :
    ∀ t t', dataRun x n t = some t' → dataStep x t'.state = .stop →
      ∀ fuel, n < fuel → dataLoop x fuel t.state t.out = some ⟨t'.out, .returned none⟩ := by
  induction n with
  | zero =>
    intro t t' h hs fuel hf
    simp only [dataRun, Option.some.injEq] at h
    subst h
    obtain ⟨f, rfl⟩ : ∃ f, fuel = f + 1 := ⟨fuel - 1, by omega⟩
    exact dataLoop_of_stop x f _ _ hs
  | succ k ih =>
    intro t t' h hs fuel hf
    rw [dataRun_front] at h
    cases ht : trackStep x t with
    | none => rw [ht] at h; exact Option.noConfusion h
    | some t1 =>
      rw [ht] at h
      obtain ⟨o, hst, hout, _⟩ := trackStep_some x t t1 ht
      obtain ⟨f, rfl⟩ : ∃ f, fuel = f + 1 := ⟨fuel - 1, by omega⟩
      rw [dataLoop, hst]
      dsimp only
      rw [← hout]
      exact ih t1 t' h hs f (by omega)

theorem ReadGroupAndElement_zeros (f : File) (rest : List Nat)
    (h : f.data.drop f.pos = 0 :: 0 :: 0 :: 0 :: rest) :
    (ReadGroupAndElement f).1 = (0, 0) := by
  have h2 : f.data.drop (f.pos + 2) = 0 :: 0 :: rest := by
    rw [← List.drop_drop, h]
    rfl
  unfold ReadGroupAndElement File.Read
  dsimp only
  rw [h]
  have hp : f.pos + (List.take 2 (0 :: 0 :: 0 :: 0 :: rest)).length = f.pos + 2 := rfl
  rw [hp, h2]
  rfl

theorem ReadGroupAndElement_at_end (f : File) (h : f.data.length ≤ f.pos) :
    (ReadGroupAndElement f).1 = (0, 0) := by
  have h1 : (f.Read 2).1 = List.replicate 2 0 := by
    rw [Read_buf, window_past_end f 0 2 (by omega)]
  have h2 : ((f.Read 2).2.Read 2).1 = List.replicate 2 0 := by
    rw [Read_buf, window_past_end _ 0 2 (by
      rw [Read_data]
      have := Read_pos_le f 2
      omega)]
  unfold ReadGroupAndElement
  dsimp only
  rw [h1, h2]
  rfl

/-- C15 (amended). The data-set loop stops at the first tag read that yields
(0000,0000): its listing is the output written before that read, with no
line for that tag and none after it.  From the cursor and the variables
with which the loop is entered, that listing does not depend on the bytes
that follow the sentinel: when the loop reaches the 4 zero bytes at the end
of `pre` in a file `pre ++ sentinel ++ suf`, it returns the same listing on
`pre ++ sentinel ++ suf'` for every `suf'`.  A tag read performed when no
byte remains yields (0000,0000), so the end of the file stops the loop in
the same way. -/
theorem sentinel_stops (x : Bool) :
    (∀ n t t', dataRun x n t = some t' → (ReadGroupAndElement t'.state.file).1 = (0, 0) →
      ∀ fuel, n < fuel → dataLoop x fuel t.state t.out = some ⟨t'.out, .returned none⟩) ∧
    (∀ (pre suf suf' : List Nat) (p : Nat) (d : Int) (c : Nat) (out : List Nat) (fr : Frame)
        (n : Nat) (t' : Tracked),
      dataRun x n ⟨⟨⟨pre ++ [0, 0, 0, 0] ++ suf, p⟩, d, c⟩, out, fr⟩ = some t' →
      t'.state.file.pos = pre.length →
      ∀ fuel, n < fuel →
        dataLoop x fuel ⟨⟨pre ++ [0, 0, 0, 0] ++ suf', p⟩, d, c⟩ out
          = some ⟨t'.out, .returned none⟩) ∧
    (∀ f : File, f.data.length ≤ f.pos → (ReadGroupAndElement f).1 = (0, 0)) := by
  refine ⟨?_, ?_, ReadGroupAndElement_at_end⟩
  · intro n t t' h h0 fuel hf
    have hz : (ReadGroupAndElement t'.state.file).1.1 = 0
        ∧ (ReadGroupAndElement t'.state.file).1.2 = 0 := by rw [h0]; exact ⟨rfl, rfl⟩
    exact dataLoop_of_run x n t t' h (dataStep_stop x _ hz) fuel hf
  · intro pre suf suf' p d c out fr n t' h hp fuel hf
    have ha : Agree pre.length (⟨pre ++ [0, 0, 0, 0] ++ suf, p⟩ : File)
        ⟨pre ++ [0, 0, 0, 0] ++ suf', p⟩ := by
      refine ⟨rfl, ?_, ?_, ?_⟩
      · dsimp only
        rw [List.append_assoc, List.append_assoc, List.take_left' rfl, List.take_left' rfl]
      · dsimp only
        simp only [List.length_append, List.length_cons, List.length_nil]
        omega
      · dsimp only
        simp only [List.length_append, List.length_cons, List.length_nil]
        omega
    obtain ⟨t2, hr2, hag, _, _, ho, _⟩ := dataRun_agree x pre.length n
      ⟨⟨⟨pre ++ [0, 0, 0, 0] ++ suf, p⟩, d, c⟩, out, fr⟩
      ⟨⟨⟨pre ++ [0, 0, 0, 0] ++ suf', p⟩, d, c⟩, out, fr⟩ t' ha rfl rfl rfl rfl h (by omega)
    have hd2 := (dataRun_bound x n _ t2 hr2).1
    dsimp only at hd2
    have hz : (ReadGroupAndElement t2.state.file).1.1 = 0
        ∧ (ReadGroupAndElement t2.state.file).1.2 = 0 := by
      have := ReadGroupAndElement_zeros t2.state.file suf' (by
        rw [hd2, ← hag.1, hp, List.append_assoc, List.drop_left' rfl]
        rfl)
      rw [this]
      exact ⟨rfl, rfl⟩
    have := dataLoop_of_run x n _ t2 hr2 (dataStep_stop x _ hz) fuel hf
    rw [ho] at this
    exact this

set_option maxRecDepth 100000 in
/-- C15 (amended), at the element (0008,0020) followed by the sentinel: with
or without the bytes `AAAA` after the sentinel the data-set loop returns the
one line of the element. -/
theorem sentinel_stops_witness :
    dataLoop true 5 ⟨⟨dateElementFile.data ++ [0, 0, 0, 0] ++ bytesOf "AAAA", 0⟩, 0, 0⟩ []
      = some ⟨bytesOf "(0008,0020) DA(8) 3544386989827698738\n", .returned none⟩ :=
  (sentinel_stops true).2.1 dateElementFile.data [] (bytesOf "AAAA") 0 0 0 [] ⟨0, []⟩ 1
    ⟨⟨⟨dateElementFile.data ++ [0, 0, 0, 0] ++ [], 16⟩, 0, 0⟩,
      bytesOf "(0008,0020) DA(8) 3544386989827698738\n", ⟨0, []⟩⟩
    (by decide) (by decide) 5 (by decide)

set_option maxRecDepth 100000 in
/-- C15 fails for the listing of `ParseDicomFile` as a whole.  In
`zeroValueFile` the meta-header loop ends at the end of the file, the rewind
puts the cursor on the last 4 bytes, all zero, and the data-set loop stops
at them with no line.  With 4 more bytes after those 4 zero bytes the
meta-header loop ends on the new bytes, the data-set loop is entered after
the zero bytes and writes a line. -/
theorem sentinel_suffix_counterexample :
    zeroValueFileMore.data = zeroValueFile.data ++ bytesOf "AAAA" ∧
    zeroValueFile.data.drop 140 = [0, 0, 0, 0] ∧
    metaLoop (zeroValueFile.data.length + 1)
        { file := (readPreamble zeroValueFile).2, transferSyntaxUID := [] }
        (bytesOf "Meta Header:\n")
      = some (.done 0 0 { file := { zeroValueFile with pos := 140 }, transferSyntaxUID := [] }
          (bytesOf "Meta Header:\n(0002,0001) UI(4) 0\n")) ∧
    ParseDicomFile zeroValueFile
      = some ⟨bytesOf "Meta Header:\n(0002,0001) UI(4) 0\n\nData Set:\n", .returned none⟩ ∧
    ParseDicomFile zeroValueFileMore
      = some ⟨bytesOf "Meta Header:\n(0002,0001) UI(4) 0\n\nData Set:\n(4141,4141) "
          ++ [0, 0] ++ bytesOf "(0) \n", .returned none⟩ := by
  decide

/-! ## The rewind, at the iteration that ends the meta-header loop -/

theorem metaRun_front_stop (n : Nat) (s : MetaState)
    (h : ∀ s1 o, metaStep s ≠ .next s1 o) : metaRun (n + 1) s = none := by
  induction n with
  | zero =>
    show (some s).bind _ = none
    rw [Option.some_bind]
    split
    · rename_i s2 o hs
      exact absurd hs (h s2 o)
    · rfl
  | succ k ih =>
    rw [metaRun, ih]
    rfl

/-- The iteration in which the meta-header loop ends is the only one, among
the iterations of the run, that stops: a state of the run whose iteration
stops gives the result of the loop. -/
theorem metaLoop_unique (fuel : Nat) :
    ∀ (s : MetaState) (out : List Nat) (g e : Nat) (s1 : MetaState) (out1 : List Nat)
      (n : Nat) (b : MetaState) (g' e' : Nat) (s' : MetaState),
      metaLoop fuel s out = some (.done g e s1 out1) →
      metaRun n s = some b → metaStep b = .stop g' e' s' →
      g' = g ∧ e' = e ∧ s' = s1 := by
  induction fuel with
  | zero => intro s out g e s1 out1 n b g' e' s' h; exact Option.noConfusion h
  | succ k ih =>
    intro s out g e s1 out1 n b g' e' s' h hr hb
    unfold metaLoop at h
    cases hm : metaStep s with
    | stop g0 e0 s0 =>
      rw [hm] at h
      simp only [Option.some.injEq, MetaEnd.done.injEq] at h
      obtain ⟨hg, he, hs, _⟩ := h
      cases n with
      | zero =>
        simp only [metaRun, Option.some.injEq] at hr
        subst hr
        rw [hm] at hb
        injection hb with h1 h2 h3
        exact ⟨h1.symm.trans hg, h2.symm.trans he, h3.symm.trans hs⟩
      | succ m =>
        rw [metaRun_front_stop m s (fun s2 o hc => by rw [hm] at hc; exact MetaStep.noConfusion hc)]
          at hr
        exact Option.noConfusion hr
    | panic o =>
      rw [hm] at h
      simp only [Option.some.injEq] at h
      exact MetaEnd.noConfusion h
    | next s0 o =>
      rw [hm] at h
      cases n with
      | zero =>
        simp only [metaRun, Option.some.injEq] at hr
        subst hr
        rw [hm] at hb
        exact MetaStep.noConfusion hb
      | succ m =>
        rw [metaRun_front m s s0 o hm] at hr
        exact ih s0 (out ++ o) g e s1 out1 m b g' e' s' h hr hb

/-- C2 (amended). The meta-header loop ends at a pair whose group is not
0x0002, in the one iteration of its run that stops.  When at least 4 bytes
remained for the `ReadGroupAndElement` call of that iteration, the rewind
puts the cursor back where that call found it, and the first pair read in
the data-set phase is the pair that ended the loop. -/
theorem metaLoop_rewind (fuel : Nat) (s : MetaState) (out : List Nat) (g e : Nat)
    (s1 : MetaState) (out1 : List Nat)
    (h : metaLoop fuel s out = some (.done g e s1 out1)) :
    g ≠ 0x0002 ∧
    (∃ n b, metaRun n s = some b ∧ metaStep b = .stop g e s1) ∧
    (∀ n b g' e' s', metaRun n s = some b → metaStep b = .stop g' e' s' →
      (g' = g ∧ e' = e ∧ s' = s1) ∧
      (4 ≤ b.file.remaining →
        s1.file = b.file ∧ (ReadGroupAndElement s1.file).1 = (g, e))) := by
  obtain ⟨n, b, hb, hst, _⟩ := metaLoop_run fuel s out g e s1 out1 h
  refine ⟨(metaStep_stop b s1 g e hst).2.2.2.1, ⟨n, b, hb, hst⟩, ?_⟩
  intro n' b' g' e' s' hr hs
  obtain ⟨hg, he, hs1⟩ := metaLoop_unique fuel s out g e s1 out1 n' b' g' e' s' h hr hs
  refine ⟨⟨hg, he, hs1⟩, fun h4 => ?_⟩
  rw [hg, he, hs1] at hs
  exact metaStep_rewind b' s1 g e hs h4

set_option maxRecDepth 100000 in
/-- C2 (amended), at the minimal file.  The second iteration, entered at
offset 158 with 4 bytes left, is the one that stops; the rewind returns to
offset 158 and the data-set phase first reads the pair (0000,0000) that
ended the loop. -/
theorem metaLoop_rewind_witness :
    (4 : Nat) ≤ (minimalFileAt 0 158).remaining ∧
    minimalFileAt 0 158 = minimalFileAt 0 158 ∧
    (ReadGroupAndElement (minimalFileAt 0 158)).1 = (0, 0) :=
  ⟨by decide,
   ((metaLoop_rewind 163 { file := minimalFileAt 0 132, transferSyntaxUID := [] }
      (bytesOf "Meta Header:\n") 0 0
      { file := minimalFileAt 0 158, transferSyntaxUID := bytesOf "1.2.840.10008.1.2" ++ [0] }
      (bytesOf "Meta Header:\n(0002,0010) UI(18) 1.2.840.10008.1.2\x00\n") (by decide)).2.2
      1 { file := minimalFileAt 0 158, transferSyntaxUID := bytesOf "1.2.840.10008.1.2" ++ [0] }
      0 0 { file := minimalFileAt 0 158, transferSyntaxUID := bytesOf "1.2.840.10008.1.2" ++ [0] }
      (by decide) (by decide)).2 (by decide)⟩

/-! ## The captured string and the mode of the data set -/

/-- The string the meta-header loop holds after `n` iterations is the value
of the element number 0x0010 met last. -/
theorem metaRun_uid_last (n : Nat) :
    ∀ s s', metaRun n s = some s' →
      ∀ k sk, k < n → metaRun k s = some sk → (ReadGroupAndElement sk.file).1.2 = 0x0010 →
      (∀ j sj, k < j → j < n → metaRun j s = some sj →
        (ReadGroupAndElement sj.file).1.2 ≠ 0x0010) →
      s'.transferSyntaxUID
        = (ReadExplicitVRTag (ReadGroupAndElement sk.file).2).1.valueBytes := by
  induction n with
  | zero => intro s s' _ k sk hk; omega
  | succ m ih =>
    intro s s' h k sk hk hrk hel hno
    obtain ⟨s1, o, h1, h2⟩ := metaRun_succ m s s' h
    rw [metaStep_uid s1 s' o h2]
    by_cases hkm : k = m
    · subst hkm
      rw [h1] at hrk
      injection hrk with hrk
      subst hrk
      rw [if_pos hel]
    · have hlt : k < m := by omega
      rw [if_neg (hno m s1 hlt (Nat.lt_succ_self m) h1)]
      exact ih s s1 h1 k sk hlt hrk hel
        (fun j sj hkj hjm hr => hno j sj hkj (Nat.lt_succ_of_lt hjm) hr)

/-- C17. The mode is implicit exactly when the captured string is
`1.2.840.10008.1.2`.  `ParseDicomFile` runs the data-set loop with the mode
computed from the string the meta-header loop ends with, after the run of
iterations that leads to the one that stops.  That string is the value of
the element number 0x0010 that the run met last, and the string the loop
started with (the empty string in `ParseDicomFile`) when the run met none.
An iteration of the data-set loop that decodes an element (neither the
(0000,0000) pair nor an item marker) does so with `ReadImplicitVRTag` when
the string is exactly `1.2.840.10008.1.2` and with `ReadExplicitVRTag` for
every other string. -/
theorem mode_from_captured_string :
    (∀ ts, isExplicitVR ts = false ↔ ts = bytesOf "1.2.840.10008.1.2") ∧
    (∀ fuel file g e s out,
      metaLoop fuel { file := file, transferSyntaxUID := [] } (bytesOf "Meta Header:\n")
        = some (.done g e s out) →
      parseBody fuel file
        = dataLoop (isExplicitVR s.transferSyntaxUID) fuel
            { file := s.file, seqDepth := 0, seqLengthRemaining := 0 }
            (out ++ bytesOf "\n" ++ bytesOf "Data Set:\n") ∧
      ∃ n b, metaRun n { file := file, transferSyntaxUID := [] } = some b ∧
        metaStep b = .stop g e s) ∧
    (∀ n s0 b g e s, metaRun n s0 = some b → metaStep b = .stop g e s →
      ((∀ k sk, k < n → metaRun k s0 = some sk →
          (ReadGroupAndElement sk.file).1.2 ≠ 0x0010) →
        s.transferSyntaxUID = s0.transferSyntaxUID) ∧
      (∀ k sk, k < n → metaRun k s0 = some sk →
        (ReadGroupAndElement sk.file).1.2 = 0x0010 →
        (∀ j sj, k < j → j < n → metaRun j s0 = some sj →
          (ReadGroupAndElement sj.file).1.2 ≠ 0x0010) →
        s.transferSyntaxUID
          = (ReadExplicitVRTag (ReadGroupAndElement sk.file).2).1.valueBytes)) ∧
    (∀ ts s,
      ¬ ((ReadGroupAndElement s.file).1.1 = 0 ∧ (ReadGroupAndElement s.file).1.2 = 0) →
      ¬ ((ReadGroupAndElement s.file).1.1 = 0xfffe ∧ (ReadGroupAndElement s.file).1.2 = 0xe000) →
      (ts = bytesOf "1.2.840.10008.1.2" →
        dataStep (isExplicitVR ts) s
          = afterDecode s (ReadGroupAndElement s.file).1.1 (ReadGroupAndElement s.file).1.2
              (ReadImplicitVRTag (ReadGroupAndElement s.file).2)) ∧
      (ts ≠ bytesOf "1.2.840.10008.1.2" →
        dataStep (isExplicitVR ts) s
          = afterDecode s (ReadGroupAndElement s.file).1.1 (ReadGroupAndElement s.file).1.2
              (ReadExplicitVRTag (ReadGroupAndElement s.file).2))) := by
  refine ⟨isExplicitVR_false_iff, ?_, ?_, ?_⟩
  · intro fuel file g e s out h
    constructor
    · unfold parseBody
      rw [h]
    · obtain ⟨n, b, hb, hst, _⟩ := metaLoop_run fuel _ _ g e s out h
      exact ⟨n, b, hb, hst⟩
  · intro n s0 b g e s hr hst
    have hts : s.transferSyntaxUID = b.transferSyntaxUID := by
      rw [(metaStep_stop b s g e hst).2.2.2.2]
    rw [hts]
    exact ⟨metaRun_uid n s0 b hr, metaRun_uid_last n s0 b hr⟩
  · intro ts s h0 hi
    rw [dataStep_decode _ s h0 hi]
    constructor
    · intro hts
      rw [(isExplicitVR_false_iff ts).2 hts, if_neg (by decide)]
    · intro hts
      have : isExplicitVR ts = true := by
        cases hx : isExplicitVR ts with
        | true => rfl
        | false => exact absurd ((isExplicitVR_false_iff ts).1 hx) hts
      rw [this, if_pos rfl]

set_option maxRecDepth 100000 in
/-- C17, at a file whose element (0002,0010) holds exactly
`1.2.840.10008.1.2`: the string the meta-header loop ends with is the value
decoded for that element, the mode is implicit, the iteration of the
data-set loop at offset 157 decodes with `ReadImplicitVRTag`, and the
listing shows the element (0008,0020) without VR. -/
theorem mode_from_captured_string_witness :
    bytesOf "1.2.840.10008.1.2"
      = (ReadExplicitVRTag (ReadGroupAndElement { implicitDataFile with pos := 132 }).2).1.valueBytes ∧
    isExplicitVR (bytesOf "1.2.840.10008.1.2") = false ∧
    dataStep (isExplicitVR (bytesOf "1.2.840.10008.1.2"))
        ⟨{ implicitDataFile with pos := 157 }, 0, 0⟩
      = afterDecode ⟨{ implicitDataFile with pos := 157 }, 0, 0⟩
          (ReadGroupAndElement { implicitDataFile with pos := 157 }).1.1
          (ReadGroupAndElement { implicitDataFile with pos := 157 }).1.2
          (ReadImplicitVRTag (ReadGroupAndElement { implicitDataFile with pos := 157 }).2) ∧
    ParseDicomFile implicitDataFile
      = some ⟨bytesOf "Meta Header:\n(0002,0010) UI(17) 1.2.840.10008.1.2\n\nData Set:\n"
          ++ bytesOf "(0008,0020) (8) 3544386989827698738\n", .returned none⟩ :=
  ⟨(mode_from_captured_string.2.2.1 1
      ⟨{ implicitDataFile with pos := 132 }, []⟩
      ⟨{ implicitDataFile with pos := 157 }, bytesOf "1.2.840.10008.1.2"⟩ 8 0x20
      ⟨{ implicitDataFile with pos := 157 }, bytesOf "1.2.840.10008.1.2"⟩
      (by decide) (by decide)).2 0 ⟨{ implicitDataFile with pos := 132 }, []⟩
      (by decide) (by decide) (by decide) (fun j sj h1 h2 => by omega),
   (mode_from_captured_string.1 _).2 rfl,
   (mode_from_captured_string.2.2.2 (bytesOf "1.2.840.10008.1.2")
      ⟨{ implicitDataFile with pos := 157 }, 0, 0⟩ (by decide) (by decide)).1 rfl,
   by decide⟩

/-! ## The lines of a nested sequence -/

set_option maxRecDepth 100000 in
/-- C13 (the code at a sequence nested in a sequence). `ParseDicomFile`
returns `nil` on the file and its data-set loop, entered at offset 160 with
depth 0, runs five iterations.  The leaf line is written at depth 4 with
8 spaces, twice the depth.  The marker lines do not follow the depth: the
outer `<Sequence of Items>` line is written at depth 1 with no space, the
outer `<Sequence Item>` line at depth 2 with two spaces, the inner
`<Sequence of Items>` line at depth 3 with no space and the inner
`<Sequence Item>` line at depth 4 with two spaces. -/
theorem nested_sequence_indentation :
    ParseDicomFile nestedSequenceFile
      = some ⟨bytesOf "Meta Header:\n(0002,0010) UI(20) 1.2.840.10008.1.2.1\x00\n\nData Set:\n"
          ++ bytesOf "(0008,1140) SQ(44) <Sequence of Items>\n"
          ++ bytesOf "  (fffe,e000) NA(36) <Sequence Item>\n"
          ++ bytesOf "(0040,a730) SQ(24) <Sequence of Items>\n"
          ++ bytesOf "  (fffe,e000) NA(16) <Sequence Item>\n"
          ++ bytesOf "        (0008,0020) DA(8) 3544386989827698738\n", .returned none⟩ ∧
    metaLoop 217 { file := { nestedSequenceFile with pos := 132 }, transferSyntaxUID := [] }
        (bytesOf "Meta Header:\n")
      = some (.done 0x0008 0x1140
          { file := { nestedSequenceFile with pos := 160 },
            transferSyntaxUID := bytesOf "1.2.840.10008.1.2.1\x00" }
          (bytesOf "Meta Header:\n(0002,0010) UI(20) 1.2.840.10008.1.2.1\x00\n")) ∧
    dataStep true { file := { nestedSequenceFile with pos := 160 }, seqDepth := 0,
                    seqLengthRemaining := 0 }
      = .next { file := { nestedSequenceFile with pos := 172 }, seqDepth := 1,
                seqLengthRemaining := 44 }
          (bytesOf "(0008,1140) SQ(44) <Sequence of Items>\n") ∧
    dataStep true { file := { nestedSequenceFile with pos := 172 }, seqDepth := 1,
                    seqLengthRemaining := 44 }
      = .next { file := { nestedSequenceFile with pos := 180 }, seqDepth := 2,
                seqLengthRemaining := 8 }
          (bytesOf "  (fffe,e000) NA(36) <Sequence Item>\n") ∧
    dataStep true { file := { nestedSequenceFile with pos := 180 }, seqDepth := 2,
                    seqLengthRemaining := 8 }
      = .next { file := { nestedSequenceFile with pos := 192 }, seqDepth := 3,
                seqLengthRemaining := 24 }
          (bytesOf "(0040,a730) SQ(24) <Sequence of Items>\n") ∧
    dataStep true { file := { nestedSequenceFile with pos := 192 }, seqDepth := 3,
                    seqLengthRemaining := 24 }
      = .next { file := { nestedSequenceFile with pos := 200 }, seqDepth := 4,
                seqLengthRemaining := 8 }
          (bytesOf "  (fffe,e000) NA(16) <Sequence Item>\n") ∧
    dataStep true { file := { nestedSequenceFile with pos := 200 }, seqDepth := 4,
                    seqLengthRemaining := 8 }
      = .next { file := { nestedSequenceFile with pos := 216 }, seqDepth := 4,
                seqLengthRemaining := 8 }
          (bytesOf "        (0008,0020) DA(8) 3544386989827698738\n") ∧
    (bytesOf "        (0008,0020) DA(8) 3544386989827698738\n").take (2 * 4 + 1)
      = List.replicate (2 * 4) 32 ++ bytesOf "(" ∧
    (bytesOf "(0008,1140) SQ(44) <Sequence of Items>\n").take (2 * 1)
      ≠ List.replicate (2 * 1) 32 ∧
    (bytesOf "  (fffe,e000) NA(36) <Sequence Item>\n").take (2 * 2)
      ≠ List.replicate (2 * 2) 32 ∧
    (bytesOf "(0040,a730) SQ(24) <Sequence of Items>\n").take (2 * 3)
      ≠ List.replicate (2 * 3) 32 ∧
    (bytesOf "  (fffe,e000) NA(16) <Sequence Item>\n").take (2 * 4)
      ≠ List.replicate (2 * 4) 32 := by
  decide

end DicomParser
